import Mathlib

/-!
Verification of the Cumulocity Robot Framework keyword library
(`src/Cumulocity/Cumulocity.py`) against its specification.

The Python module is shallowly embedded: Python runtime values are the
inductive `PyVal`, exceptions are `PyErr`, and each function of the module
(`is_dot_notation`, `try_parse_json`, `_software_format_list`,
`_convert_item`, `_convert_to_json`, `_create_dict`, `create_operation`,
`end_suite`, `assert_measurement_count`) becomes a Lean function over
`PyVal` returning `Except PyErr _` where the Python code can raise.
`json.loads` is embedded as a fueled recursive-descent parser `jsonLoads`
following Python's `json` module (strict mode): the exact same inputs
succeed or fail, modulo the noted approximations (the `\w` regex class and
`str.strip` are modelled over ASCII, float literals are kept as lexemes).
-/

set_option maxHeartbeats 1000000

namespace C8y

/-- Python runtime values, as far as this module manipulates them.
`dmap` is a `dotmap.DotMap` node (auto-vivifying mapping), `dict` a plain
`dict`; `float` keeps the numeric lexeme rather than IEEE semantics;
`obj` models an external client domain object: its first field is the
value returned by `to_json()` when the attribute exists, the second the
`id` attribute when present. -/
inductive PyVal where
  | none
  | bool (b : Bool)
  | int (n : Int)
  | float (lexeme : String)
  | str (s : String)
  | list (xs : List PyVal)
  | dict (entries : List (String × PyVal))
  | dmap (entries : List (String × PyVal))
  | obj (toJson : Option PyVal) (id : Option PyVal)
deriving Repr

/-- Python exceptions raised by the embedded code paths. -/
inductive PyErr where
  | jsonDecodeError
  | valueError (msg : String)
  | typeError
  | keyError (k : String)
  | unboundLocalError (name : String)
deriving Repr, DecidableEq

/-- First-occurrence lookup in an association list, i.e. `d[k]` /
`dict.get` on a Python dict whose keys are unique. -/
def lookupEntry (k : String) : List (String × PyVal) → Option PyVal
  | [] => Option.none
  | (k', v') :: rest => if k' = k then Option.some v' else lookupEntry k rest

/-- `d[k] = v` on a Python dict: updates the first binding of `k` in
place, otherwise appends (insertion order preserved). -/
def setEntry (es : List (String × PyVal)) (k : String) (v : PyVal) :
    List (String × PyVal) :=
  match es with
  | [] => [(k, v)]
  | (k', v') :: rest =>
    if k' = k then (k', v) :: rest else (k', v') :: setEntry rest k v

/-- Python truthiness (`bool(v)`) for the embedded values. A `float` is
falsy when its mantissa has no non-zero digit (underflow to `0.0` of tiny
exponents is not modelled). External objects are truthy (no `__bool__`). -/
def falsy : PyVal → Bool
  | .none => true
  | .bool b => !b
  | .int n => n = 0
  | .float lex => (lex.toList.all fun c => !(c.isDigit && c ≠ '0'))
  | .str s => s = ""
  | .list xs => xs.isEmpty
  | .dict es => es.isEmpty
  | .dmap es => es.isEmpty
  | .obj _ _ => false

/-! ### String helpers mirroring the Python string operations used -/

/-- Characters removed by Python `str.strip()` (ASCII whitespace). -/
def isPyWs (c : Char) : Bool :=
  c = ' ' || c = '\t' || c = '\n' || c = '\r' || c = '\x0b' || c = '\x0c'

/-- `str.strip()` on the character list. -/
def pyStripList (cs : List Char) : List Char :=
  ((cs.dropWhile isPyWs).reverse.dropWhile isPyWs).reverse

/-- `str.strip()` (ASCII whitespace only). -/
def pyStrip (s : String) : String := String.mk (pyStripList s.data)

/-- `s.split(sep, maxsplit)` on character lists for a single-character
separator: split at the first `maxsplit` occurrences, keep the remainder
whole. -/
def pySplitMax (sep : Char) : List Char → Nat → List (List Char)
  | cs, 0 => [cs]
  | cs, n + 1 =>
    let pre := cs.takeWhile (· ≠ sep)
    match cs.dropWhile (· ≠ sep) with
    | [] => [cs]
    | _ :: rest => pre :: pySplitMax sep rest n

/-- `s.split(",", 5)` as used by `_software_format_list`. -/
def pySplitComma5 (s : String) : List String :=
  (pySplitMax ',' s.data 5).map String.mk

/-- `s.split(sep)` without maxsplit (single-character separator),
e.g. `key.split(".")`: empty components are kept, the result is never
empty. -/
def pySplitAll (sep : Char) : List Char → List (List Char)
  | [] => [[]]
  | c :: rest =>
    let r := pySplitAll sep rest
    if c = sep then [] :: r
    else
      match r with
      | [] => [[c]]
      | a :: as => (c :: a) :: as

/-- `key.split(".")` returning the dotted path components. -/
def splitDots (s : String) : List String :=
  (pySplitAll '.' s.data).map String.mk

/-- `item.partition("=")` restricted to the two components used by
`_create_dict`: the part before the first `=` and the part after it
(empty when there is no `=`). -/
def partitionEq (s : String) : String × String :=
  let pre := s.data.takeWhile (· ≠ '=')
  match s.data.dropWhile (· ≠ '=') with
  | [] => (String.mk pre, "")
  | _ :: rest => (String.mk pre, String.mk rest)

/-- The character class of the `is_dot_notation` regex
`^[\w.\-: ]+$` with `\w` modelled over ASCII (word characters:
letters, digits, underscore). -/
def isDotChar (c : Char) : Bool :=
  c.isAlphanum || c = '_' || c = '.' || c = '-' || c = ':' || c = ' '

/-- `is_dot_notation(key)`: Python `re.match(r"^[\w.\-: ]+$", key)`.
`$` also matches just before a single trailing newline, which is
reproduced here. -/
def isDotKey (s : String) : Bool :=
  let core := match s.data.reverse with
    | '\n' :: rest => rest.reverse
    | _ => s.data
  !core.isEmpty && core.all isDotChar

/-- `item.startswith("{")`. -/
def startsWithLbrace (s : String) : Bool :=
  match s.data with
  | [] => false
  | c :: _ => c = Char.ofNat 123

/-- `item.endswith("}")`. -/
def endsWithRbrace (s : String) : Bool :=
  match s.data.reverse with
  | [] => false
  | c :: _ => c = Char.ofNat 125

/-! ### `json.loads` (Python `json` module, strict mode) -/

/-- JSON whitespace skipped between tokens (` `, `\t`, `\n`, `\r`). -/
def skipJsonWs (cs : List Char) : List Char :=
  cs.dropWhile fun c => c = ' ' || c = '\t' || c = '\n' || c = '\r'

/-- Consume an expected literal, returning the remainder. -/
def dropLit : List Char → List Char → Option (List Char)
  | [], cs => Option.some cs
  | l :: ls, c :: cs => if c = l then dropLit ls cs else Option.none
  | _ :: _, [] => Option.none

/-- Hexadecimal digit test. -/
def isHexDig (c : Char) : Bool :=
  c.isDigit || ('a' ≤ c && c ≤ 'f') || ('A' ≤ c && c ≤ 'F')

/-- Hexadecimal digit value. -/
def hexVal (c : Char) : Nat :=
  if c.isDigit then c.toNat - 48
  else if 'a' ≤ c ∧ c ≤ 'f' then c.toNat - 87
  else c.toNat - 55

/-- Single-character string escapes of JSON. -/
def jsonEsc (c : Char) : Option Char :=
  if c = '"' then Option.some '"'
  else if c = '\\' then Option.some '\\'
  else if c = '/' then Option.some '/'
  else if c = 'b' then Option.some (Char.ofNat 8)
  else if c = 'f' then Option.some (Char.ofNat 12)
  else if c = 'n' then Option.some '\n'
  else if c = 'r' then Option.some '\r'
  else if c = 't' then Option.some '\t'
  else Option.none

/-- Body of a JSON string after the opening quote: content and remainder.
Unescaped control characters are rejected (strict mode); `\uXXXX` maps
through `Char.ofNat` (surrogate-pair recombination is not modelled). -/
def parseJsonString (fuel : Nat) (cs : List Char) :
    Except PyErr (List Char × List Char) :=
  match fuel with
  | 0 => .error .jsonDecodeError
  | fuel + 1 =>
    match cs with
    | [] => .error .jsonDecodeError
    | c :: rest =>
      if c = '"' then .ok ([], rest)
      else if c = '\\' then
        match rest with
        | [] => .error .jsonDecodeError
        | e :: rest2 =>
          if e = 'u' then
            match rest2 with
            | h1 :: h2 :: h3 :: h4 :: rest3 =>
              if isHexDig h1 && isHexDig h2 && isHexDig h3 &&
                  isHexDig h4 then
                match parseJsonString fuel rest3 with
                | .ok (s, r) =>
                  .ok (Char.ofNat
                    (((hexVal h1 * 16 + hexVal h2) * 16 + hexVal h3) * 16 +
                      hexVal h4) :: s, r)
                | .error err => .error err
              else .error .jsonDecodeError
            | _ => .error .jsonDecodeError
          else
            match jsonEsc e with
            | Option.some ec =>
              match parseJsonString fuel rest2 with
              | .ok (s, r) => .ok (ec :: s, r)
              | .error err => .error err
            | Option.none => .error .jsonDecodeError
      else if c.toNat < 32 then .error .jsonDecodeError
      else
        match parseJsonString fuel rest with
        | .ok (s, r) => .ok (c :: s, r)
        | .error err => .error err

/-- Scan a JSON number per the grammar
`-?(0|[1-9][0-9]*)(\.[0-9]+)?([eE][+-]?[0-9]+)?`, returning the
integer/float value and the remainder, or `none` when no number starts
here. Integers (no fraction, no exponent) become `PyVal.int`; others keep
their lexeme as `PyVal.float`. -/
def scanJsonNumber (cs : List Char) : Option (PyVal × List Char) :=
  let (sign, cs1) :=
    match cs with
    | '-' :: rest => (['-'], rest)
    | _ => (([] : List Char), cs)
  let intPart : Option (List Char × List Char) :=
    match cs1 with
    | '0' :: rest => Option.some (['0'], rest)
    | c :: rest =>
      if c.isDigit then
        Option.some (c :: rest.takeWhile Char.isDigit,
          rest.dropWhile Char.isDigit)
      else Option.none
    | [] => Option.none
  match intPart with
  | Option.none => Option.none
  | Option.some (ip, cs2) =>
    let (fracPart, cs3) :=
      match cs2 with
      | '.' :: d :: rest =>
        if d.isDigit then
          ('.' :: d :: rest.takeWhile Char.isDigit,
            rest.dropWhile Char.isDigit)
        else (([] : List Char), cs2)
      | _ => (([] : List Char), cs2)
    let (expPart, cs4) :=
      match cs3 with
      | e :: rest =>
        if e = 'e' || e = 'E' then
          let (esign, rest2) :=
            match rest with
            | s :: r2 => if s = '+' || s = '-' then ([s], r2)
                         else (([] : List Char), rest)
            | [] => (([] : List Char), rest)
          match rest2 with
          | d :: _ =>
            if d.isDigit then
              (e :: esign ++ rest2.takeWhile Char.isDigit,
                rest2.dropWhile Char.isDigit)
            else (([] : List Char), cs3)
          | [] => (([] : List Char), cs3)
        else (([] : List Char), cs3)
      | [] => (([] : List Char), cs3)
    if fracPart.isEmpty && expPart.isEmpty then
      let mag : Nat := ip.foldl (fun a c => a * 10 + (c.toNat - 48)) 0
      let n : Int := if sign.isEmpty then (mag : Int) else -(mag : Int)
      Option.some (.int n, cs4)
    else
      Option.some (.float (String.mk (sign ++ ip ++ fracPart ++ expPart)), cs4)

mutual

/-- One JSON value starting at `cs` (leading whitespace allowed),
returning it and the unconsumed remainder. -/
def parseJsonVal (fuel : Nat) (cs : List Char) :
    Except PyErr (PyVal × List Char) :=
  match fuel with
  | 0 => .error .jsonDecodeError
  | fuel + 1 =>
    match skipJsonWs cs with
    | [] => .error .jsonDecodeError
    | c :: rest =>
      if c = '"' then
        match parseJsonString fuel rest with
        | .ok (s, r) => .ok (.str (String.mk s), r)
        | .error err => .error err
      else if c = Char.ofNat 91 then  -- [
        parseJsonArrayRest fuel [] (c :: rest)
      else if c = Char.ofNat 123 then  -- opening brace
        parseJsonObjRest fuel [] (c :: rest)
      else if c = 'n' then
        match dropLit ['u', 'l', 'l'] rest with
        | Option.some r => .ok (.none, r)
        | Option.none => .error .jsonDecodeError
      else if c = 't' then
        match dropLit ['r', 'u', 'e'] rest with
        | Option.some r => .ok (.bool true, r)
        | Option.none => .error .jsonDecodeError
      else if c = 'f' then
        match dropLit ['a', 'l', 's', 'e'] rest with
        | Option.some r => .ok (.bool false, r)
        | Option.none => .error .jsonDecodeError
      else if c = 'N' then
        match dropLit ['a', 'N'] rest with
        | Option.some r => .ok (.float "nan", r)
        | Option.none => .error .jsonDecodeError
      else if c = 'I' then
        match dropLit ['n', 'f', 'i', 'n', 'i', 't', 'y'] rest with
        | Option.some r => .ok (.float "inf", r)
        | Option.none => .error .jsonDecodeError
      else if c = '-' && (match rest with | 'I' :: _ => true | _ => false) then
        match dropLit ['I', 'n', 'f', 'i', 'n', 'i', 't', 'y'] rest with
        | Option.some r => .ok (.float "-inf", r)
        | Option.none => .error .jsonDecodeError
      else
        match scanJsonNumber (c :: rest) with
        | Option.some (v, r) => .ok (v, r)
        | Option.none => .error .jsonDecodeError

/-- Array remainder: called on `[`
(first time) or on a `,` (subsequent elements), with the elements
accumulated so far. -/
def parseJsonArrayRest (fuel : Nat) (acc : List PyVal) (cs : List Char) :
    Except PyErr (PyVal × List Char) :=
  match fuel with
  | 0 => .error .jsonDecodeError
  | fuel + 1 =>
    match cs with
    | [] => .error .jsonDecodeError
    | _ :: afterDelim =>
      match skipJsonWs afterDelim with
      | c :: rest =>
        if c = Char.ofNat 93 && acc.isEmpty then  -- ] right after [
          .ok (.list [], rest)
        else
          match parseJsonVal fuel (c :: rest) with
          | .ok (v, r) =>
            (match skipJsonWs r with
             | c2 :: r2 =>
               if c2 = Char.ofNat 93 then .ok (.list (acc ++ [v]), r2)
               else if c2 = ',' then parseJsonArrayRest fuel (acc ++ [v]) (c2 :: r2)
               else .error .jsonDecodeError
             | [] => .error .jsonDecodeError)
          | .error err => .error err
      | [] => .error .jsonDecodeError

/-- Object remainder: called on the opening brace (first time) or on a
`,` (subsequent members), with the members accumulated so far; duplicate
keys overwrite in place as in a Python dict. -/
def parseJsonObjRest (fuel : Nat) (acc : List (String × PyVal))
    (cs : List Char) : Except PyErr (PyVal × List Char) :=
  match fuel with
  | 0 => .error .jsonDecodeError
  | fuel + 1 =>
    match cs with
    | [] => .error .jsonDecodeError
    | _ :: afterDelim =>
      match skipJsonWs afterDelim with
      | c :: rest =>
        if c = Char.ofNat 125 && acc.isEmpty then  -- closing brace right away
          .ok (.dict [], rest)
        else if c = '"' then
          match parseJsonString fuel rest with
          | .ok (k, afterKey) =>
            (match skipJsonWs afterKey with
             | ':' :: afterColon =>
               (match parseJsonVal fuel afterColon with
                | .ok (v, r) =>
                  let acc2 := setEntry acc (String.mk k) v
                  (match skipJsonWs r with
                   | c2 :: r2 =>
                     if c2 = Char.ofNat 125 then .ok (.dict acc2, r2)
                     else if c2 = ',' then
                       parseJsonObjRest fuel acc2 (c2 :: r2)
                     else .error .jsonDecodeError
                   | [] => .error .jsonDecodeError)
                | .error err => .error err)
             | _ => .error .jsonDecodeError)
          | .error err => .error err
        else .error .jsonDecodeError
      | [] => .error .jsonDecodeError

end

/-- `json.loads(s)`: parse one JSON document; anything but trailing
whitespace after it is an error ("Extra data"). -/
def jsonLoads (s : String) : Except PyErr PyVal :=
  match parseJsonVal (s.data.length + 1) s.data with
  | .ok (v, rest) =>
    if (skipJsonWs rest).isEmpty then .ok v else .error .jsonDecodeError
  | .error err => .error err

/-- `try_parse_json(value, str)` as called by `_software_format_list`:
`json.loads` with fallback to the string itself on a decode error. -/
def try_parse_json (s : String) : PyVal :=
  match jsonLoads s with
  | .ok v => v
  | .error _ => .str s

/-! ### `_software_format_list` -/

/-- Model of the external `c8y_test_core.models.Software` value as the
spec describes it: a name/version/url triple plus an `action` field.
`Option.none` models an unset field; positional construction fills the
fields in this order (no claim exercises positions beyond these). -/
structure Software where
  name : Option PyVal
  version : Option PyVal
  url : Option PyVal
  action : Option PyVal
deriving Repr

/-- `Software(*parts)`: positional construction from the CSV split. -/
def softwareOfParts (parts : List String) : Software where
  name := (parts.get? 0).map PyVal.str
  version := (parts.get? 1).map PyVal.str
  url := (parts.get? 2).map PyVal.str
  action := (parts.get? 3).map PyVal.str

/-- `Software(**raw_item)`: keyword construction from a JSON dictionary
(unrecognised keys are absorbed as extra keyword arguments). -/
def softwareOfDict (es : List (String × PyVal)) : Software where
  name := lookupEntry "name" es
  version := lookupEntry "version" es
  url := lookupEntry "url" es
  action := lookupEntry "action" es

/-- `not software_item.action`: the action is unset or falsy. -/
def actionFalsy (sw : Software) : Bool :=
  match sw.action with
  | Option.none => true
  | Option.some v => falsy v

/-- Modelled from the spec: `SoftwareManagement.Action.INSTALL`, the
"default action (install)" of the external software-management client,
whose source is outside this repository. -/
def ACTION_INSTALL : PyVal := .str "install"

/-- Per-item conversion of `_software_format_list` before the
default-action injection: CSV split for a string, keyword construction
for a JSON dictionary, `ValueError` otherwise. Used to specify the loop. -/
def rawSoftwareOf (item : String) : Except PyErr Software :=
  match try_parse_json item with
  | .str s => .ok (softwareOfParts (pySplitComma5 s))
  | .dict es => .ok (softwareOfDict es)
  | _ => .error (.valueError
      "Invalid software item definition. Only csv string or json dictionary are accepted")

/-- The default-action injection
(`if not software_item.action and default_action:`). -/
def injectAction (default_action : PyVal) (sw : Software) : Software :=
  if actionFalsy sw && !falsy default_action then
    { sw with action := Option.some default_action }
  else sw

/-- `_software_format_list(*items, default_action=Action.INSTALL)`:
the loop over the items, appending each converted `Software` value
(with the default-action injection applied), raising at the first
invalid item. -/
def software_format_list (default_action : PyVal) :
    List String → Except PyErr (List Software)
  | [] => .ok []
  | item :: rest =>
    match try_parse_json item with
    | .str s =>
      match software_format_list default_action rest with
      | .ok l => .ok (injectAction default_action (softwareOfParts (pySplitComma5 s)) :: l)
      | .error e => .error e
    | .dict es =>
      match software_format_list default_action rest with
      | .ok l => .ok (injectAction default_action (softwareOfDict es) :: l)
      | .error e => .error e
    | _ => .error (.valueError
        "Invalid software item definition. Only csv string or json dictionary are accepted")

/-! ### `_convert_item` / `_convert_to_json` -/

/-- `_convert_item(item)`: falsy values become `""`; an object with a
`to_json` attribute is replaced by `to_json()`, with `data["id"] =
item.id` when `data` is truthy and the object has an `id`; anything else
is returned unchanged. -/
def convert_item (item : PyVal) : Except PyErr PyVal :=
  if falsy item then .ok (.str "")
  else
    match item with
    | .obj (Option.some data) idOpt =>
      if falsy data then .ok data
      else
        match idOpt with
        | Option.none => .ok data
        | Option.some idv =>
          match data with
          | .dict es => .ok (.dict (setEntry es "id" idv))
          | .dmap es => .ok (.dmap (setEntry es "id" idv))
          | _ => .error .typeError
    | _ => .ok item

/-- `_convert_to_json(item)`: a list is converted element-wise, anything
else goes through `_convert_item`. -/
def convert_to_json (item : PyVal) : Except PyErr PyVal :=
  match item with
  | .list xs =>
    match xs.mapM convert_item with
    | .ok l => .ok (.list l)
    | .error e => .error e
  | _ => convert_item item

/-! ### `create_operation` -/

/-- `{**a, **b}` on Python dicts: entries of `a` updated/extended by the
entries of `b` in order (later bindings win, first position kept). -/
def mergeKw (a b : List (String × PyVal)) : List (String × PyVal) :=
  b.foldl (fun acc kv => setEntry acc kv.1 kv.2) a

/-- The default of the `description` parameter of `create_operation`. -/
def DEFAULT_DESCRIPTION : PyVal := .str "Custom operation"

/-- `create_operation(fragments, description, **kwargs)`: `None`
fragments become `{}`, string fragments are parsed with `json.loads`,
and the single external call receives
`{"description": description, **fragments, **kwargs}`, returned here as
the entry list handed to `device_mgmt.create_operation`. -/
def create_operation (fragments : PyVal) (description : PyVal)
    (kwargs : List (String × PyVal)) : Except PyErr (List (String × PyVal)) :=
  let frags0 := match fragments with
    | .none => PyVal.dict []
    | v => v
  let parsed : Except PyErr PyVal :=
    match frags0 with
    | .str s => jsonLoads s
    | v => .ok v
  match parsed with
  | .error e => .error e
  | .ok v =>
    match v with
    | .dict es => .ok (mergeKw (mergeKw [("description", description)] es) kwargs)
    | .dmap es => .ok (mergeKw (mergeKw [("description", description)] es) kwargs)
    | _ => .error .typeError

/-! ### `end_suite` -/

/-- A member of the `_on_cleanup` list: either a non-callable value
(skipped by the `callable` check) or a callback whose invocation either
returns a value or raises an exception. -/
inductive Cleanup where
  | notCallable (v : PyVal)
  | callback (result : Except PyErr PyVal)

/-- The `callable(func)` check. -/
def isCallable : Cleanup → Bool
  | .notCallable _ => false
  | .callback _ => true

/-- The outcome of invoking a callback once. -/
def invokeResult : Cleanup → Except PyErr PyVal
  | .notCallable v => .ok v
  | .callback r => r

/-- The `for func in self._on_cleanup` loop of `end_suite`: each callable
entry is invoked once in order; a raised exception is caught by the
`try`/`except`, logged and swallowed, and the loop continues. The
returned trace lists the outcome of every invocation made. -/
def end_suite_loop : List Cleanup → List (Except PyErr PyVal)
  | [] => []
  | .notCallable _ :: rest => end_suite_loop rest
  | .callback r :: rest => r :: end_suite_loop rest

/-- `end_suite(_data, result)`: run the loop, then
`self._on_cleanup.clear()`. Returns the invocation trace and the final
cleanup list. -/
def end_suite (cbs : List Cleanup) : List (Except PyErr PyVal) × List Cleanup :=
  (end_suite_loop cbs, [])

/-! ### `assert_measurement_count` ("Device Should Have Measurements") -/

/-- Outcome of the external
`device_mgmt.measurements.assert_count(...)` call: a returned value, a
raised `AssertionError` (with its `args`), or any other exception. -/
inductive ExtCall where
  | ok (v : PyVal)
  | assertionError (args : PyVal)
  | otherExc (e : PyErr)

/-- Outcome of a keyword as the test runner sees it: a returned value,
the runner's native failure signal (`robot.utils.asserts.fail`), or a
propagated exception. -/
inductive KwOutcome where
  | returned (v : PyVal)
  | failSignal (args : PyVal)
  | raised (e : PyErr)

/-- `assert_measurement_count(...)`: forward to the external
`assert_count`; convert its result with `_convert_to_json`; an
`AssertionError` is caught and converted into the runner's failure
signal via `fail(...)`; other exceptions propagate. -/
def assert_measurement_count (callResult : ExtCall) : KwOutcome :=
  match callResult with
  | .ok v =>
    match convert_to_json v with
    | .ok j => .returned j
    | .error e => .raised e
  | .assertionError args => .failSignal args
  | .otherExc e => .raised e

/-! ### `_create_dict` -/

mutual

/-- `DotMap(mapping)`-style deep conversion: plain dicts become `DotMap`
nodes recursively, lists are converted element-wise. -/
def dmapDeep : PyVal → PyVal
  | .dict es => .dmap (dmapDeepEntries es)
  | .dmap es => .dmap (dmapDeepEntries es)
  | .list xs => .list (dmapDeepList xs)
  | v => v

def dmapDeepEntries : List (String × PyVal) → List (String × PyVal)
  | [] => []
  | (k, v) :: rest => (k, dmapDeep v) :: dmapDeepEntries rest

def dmapDeepList : List PyVal → List PyVal
  | [] => []
  | v :: rest => dmapDeep v :: dmapDeepList rest

end

/-- `DotMap({**a, **b})` for two mapping values (the merges of
`_create_dict`). -/
def dmapMerge (a b : PyVal) : PyVal :=
  match a, b with
  | .dmap es1, .dict es2 => dmapDeep (.dict (mergeKw es1 es2))
  | .dmap es1, .dmap es2 => dmapDeep (.dict (mergeKw es1 es2))
  | .dict es1, .dict es2 => dmapDeep (.dict (mergeKw es1 es2))
  | .dict es1, .dmap es2 => dmapDeep (.dict (mergeKw es1 es2))
  | v, _ => v

mutual

/-- `DotMap.toDict()`: `DotMap` nodes become plain dicts recursively,
lists are converted element-wise, other values are kept. -/
def toPlainDict : PyVal → PyVal
  | .dmap es => .dict (toPlainEntries es)
  | .list xs => .list (toPlainList xs)
  | v => v

def toPlainEntries : List (String × PyVal) → List (String × PyVal)
  | [] => []
  | (k, v) :: rest => (k, toPlainDict v) :: toPlainEntries rest

def toPlainList : List PyVal → List PyVal
  | [] => []
  | v :: rest => toPlainDict v :: toPlainList rest

end

/-- The nested-path assignment of `_create_dict`:
`tmp = values; for k in key_parts[:-1]: tmp = tmp[k]`, then
`tmp[key_parts[-1]] = typed_value`. Reading a missing key on a `DotMap`
auto-creates an empty `DotMap`; on a plain dict it raises `KeyError`; on
any other value subscription raises `TypeError`. -/
def assignPath (t : PyVal) : List String → PyVal → Except PyErr PyVal
  | [], _ => .error (.valueError "empty key path")
  | [k], v =>
    match t with
    | .dmap es => .ok (.dmap (setEntry es k v))
    | .dict es => .ok (.dict (setEntry es k v))
    | _ => .error .typeError
  | k :: k2 :: rest, v =>
    match t with
    | .dmap es =>
      let child := match lookupEntry k es with
        | Option.some c => c
        | Option.none => .dmap []
      match assignPath child (k2 :: rest) v with
      | .ok child' => .ok (.dmap (setEntry es k child'))
      | .error e => .error e
    | .dict es =>
      match lookupEntry k es with
      | Option.none => .error (.keyError k)
      | Option.some c =>
        match assignPath c (k2 :: rest) v with
        | .ok child' => .ok (.dict (setEntry es k child'))
        | .error e => .error e
    | _ => .error .typeError

/-- The local state of `_create_dict`: the accumulator `values = DotMap()`
and the function-local names `value_dict` and `obj`, which start unbound
(`Option.none`); referencing them unbound raises `UnboundLocalError`. -/
structure CDState where
  values : PyVal
  value_dict : Option PyVal
  obj : Option PyVal

/-- One iteration of the `for item in properties` loop of
`_create_dict`. -/
def createDictStep (st : CDState) (item : PyVal) : Except PyErr CDState :=
  match item with
  | .str s =>
    if startsWithLbrace s && endsWithRbrace s then
      match jsonLoads s with
      | .error e => .error e
      | .ok parsedObj =>
        match st.value_dict with
        | Option.none => .error (.unboundLocalError "value_dict")
        | Option.some vd =>
          .ok { st with value_dict := Option.some (dmapMerge vd parsedObj),
                        obj := Option.some parsedObj }
    else
      let kv := partitionEq s
      let key := pyStrip kv.1
      let value := pyStrip kv.2
      let typed := match jsonLoads value with
        | .ok j => j
        | .error _ => .str value
      if key ≠ "" && isDotKey key then
        match assignPath st.values (splitDots key) typed with
        | .ok values' => .ok { st with values := values' }
        | .error e => .error e
      else
        match typed with
        | .dict es => .ok { st with values := dmapMerge st.values (.dict es) }
        | _ => .error (.valueError
            "Value type not supported. Please set a string, number, boolean, or object")
  | .dict _ =>
    match st.value_dict with
    | Option.none => .error (.unboundLocalError "value_dict")
    | Option.some vd =>
      match st.obj with
      | Option.none => .error (.unboundLocalError "obj")
      | Option.some o =>
        .ok { st with value_dict := Option.some (dmapMerge vd o) }
  | _ => .error (.valueError
      "Value type not supported. Only str and dictionaries are supported as properties")

/-- `_create_dict(properties)`: fold the loop body over the items and
return `values.toDict()`. -/
def create_dict (items : List PyVal) : Except PyErr PyVal :=
  match items.foldlM createDictStep ⟨.dmap [], Option.none, Option.none⟩ with
  | .ok st => .ok (toPlainDict st.values)
  | .error e => .error e

/-! ### Observation helpers used by the theorems -/

/-- `isinstance(v, list)`. -/
def isList : PyVal → Bool
  | .list _ => true
  | _ => false

/-- `isinstance(v, str) or isinstance(v, dict)`: the two item shapes
`_software_format_list` accepts. -/
def isStrOrDict : PyVal → Bool
  | .str _ => true
  | .dict _ => true
  | _ => false

/-- `hasattr(v, "to_json")`. -/
def hasToJson : PyVal → Bool
  | .obj (Option.some _) _ => true
  | _ => false

/-- Whether `json.loads` fails on this input (with a decode error). -/
def jsonFails (s : String) : Bool :=
  match jsonLoads s with
  | .error _ => true
  | .ok _ => false

/-! ### Association-list lemmas -/

theorem lookupEntry_setEntry_self (es : List (String × PyVal)) (k : String)
    (v : PyVal) : lookupEntry k (setEntry es k v) = Option.some v := by
  induction es with
  | nil => simp [setEntry, lookupEntry]
  | cons kv rest ih =>
    obtain ⟨k', v'⟩ := kv
    by_cases h : k' = k
    · simp [setEntry, lookupEntry, h]
    · simp [setEntry, lookupEntry, h, ih]

theorem lookupEntry_setEntry_other (es : List (String × PyVal))
    (k k' : String) (v : PyVal) (h : k' ≠ k) :
    lookupEntry k' (setEntry es k v) = lookupEntry k' es := by
  induction es with
  | nil =>
    simp only [setEntry, lookupEntry]
    rw [if_neg (fun hh => h hh.symm)]
  | cons kv rest ih =>
    obtain ⟨k0, v0⟩ := kv
    by_cases h0 : k0 = k
    · subst h0
      simp only [setEntry, lookupEntry, if_pos rfl]
      rw [if_neg (fun hh => h hh.symm), if_neg (fun hh => h hh.symm)]
    · simp only [setEntry, lookupEntry, if_neg h0]
      by_cases h1 : k0 = k'
      · simp [h1]
      · simp [h1, ih]

/-! ### Claim C5 -/

/-- C5: `end_suite` invokes each accumulated callable cleanup callback
exactly once, sequentially in registration order — the invocation trace
is precisely the callable entries of the list, in order, each with its
own outcome; an exception raised by a callback is caught and swallowed,
so the trace still covers every later callable; after `end_suite` the
cleanup list is empty. -/
theorem end_suite_cleanup_spec (cbs : List Cleanup) :
    (end_suite cbs).1 = (cbs.filter isCallable).map invokeResult ∧
    (end_suite cbs).2 = [] := by
  refine ⟨?_, rfl⟩
  show end_suite_loop cbs = _
  induction cbs with
  | nil => rfl
  | cons cb rest ih =>
    cases cb with
    | notCallable v => simpa [end_suite_loop, isCallable, List.filter] using ih
    | callback r =>
      simp [end_suite_loop, isCallable, List.filter, invokeResult, ih]

/-! ### Claim C7 -/

/-- C7: "Device Should Have Measurements" produces the runner's native
failure signal (`fail(...)`) exactly when the external `assert_count`
raises an `AssertionError` — the `AssertionError` is converted rather
than propagated; when `assert_count` succeeds its result is returned
converted by `_convert_to_json`; other exceptions propagate as
exceptions, not as the failure signal. -/
theorem assert_measurement_count_spec (r : ExtCall) :
    ((∃ args, r = ExtCall.assertionError args) ↔
      (∃ args, assert_measurement_count r = KwOutcome.failSignal args)) ∧
    (∀ v j, r = ExtCall.ok v → convert_to_json v = .ok j →
      assert_measurement_count r = KwOutcome.returned j) ∧
    (∀ e, r = ExtCall.otherExc e →
      assert_measurement_count r = KwOutcome.raised e) := by
  cases r with
  | ok v =>
    refine ⟨⟨?_, ?_⟩, ?_, ?_⟩
    · rintro ⟨a, ha⟩; cases ha
    · rintro ⟨a, ha⟩
      exfalso
      rw [show assert_measurement_count (ExtCall.ok v) =
          (match convert_to_json v with
            | Except.ok j => KwOutcome.returned j
            | Except.error e => KwOutcome.raised e) from rfl] at ha
      cases h : convert_to_json v with
      | ok j => rw [h] at ha; cases ha
      | error e => rw [h] at ha; cases ha
    · intro v' j hv hj
      cases hv
      show (match convert_to_json v with
        | Except.ok j => KwOutcome.returned j
        | Except.error e => KwOutcome.raised e) = _
      rw [hj]
    · intro e he; cases he
  | assertionError a =>
    refine ⟨⟨fun _ => ⟨a, rfl⟩, fun _ => ⟨a, rfl⟩⟩, ?_, ?_⟩
    · intro v j hv _; cases hv
    · intro e he; cases he
  | otherExc e =>
    refine ⟨⟨?_, ?_⟩, ?_, ?_⟩
    · rintro ⟨a, ha⟩; cases ha
    · rintro ⟨a, ha⟩; cases ha
    · intro v j hv _; cases hv
    · intro e' he; cases he; rfl

/-- Witness for C7 at concrete inputs: an `AssertionError` from the
external call becomes the failure signal, and a successful call returns
the converted result. -/
theorem assert_measurement_count_spec_witness :
    (∃ args, assert_measurement_count (ExtCall.assertionError (PyVal.str "minimum=1"))
      = KwOutcome.failSignal args) ∧
    assert_measurement_count (ExtCall.ok (PyVal.int 3)) = KwOutcome.returned (PyVal.int 3) :=
  ⟨(assert_measurement_count_spec (ExtCall.assertionError (PyVal.str "minimum=1"))).1.mp
      ⟨PyVal.str "minimum=1", rfl⟩,
    (assert_measurement_count_spec (ExtCall.ok (PyVal.int 3))).2.1
      (PyVal.int 3) (PyVal.int 3) rfl rfl⟩

/-! ### Claim C9 -/

/-- C9: `_convert_item` maps every falsy value (`None`, `0`, `""`, empty
dict, empty list element) to the empty string `""`, so
`_convert_to_json` returns `""` for every falsy non-list result (a falsy
list is handled element-wise: the empty list stays `[]`). -/
theorem convert_item_falsy_spec (v : PyVal) (h : falsy v = true) :
    convert_item v = .ok (.str "") ∧
    (isList v = false → convert_to_json v = .ok (.str "")) ∧
    convert_to_json (.list []) = .ok (.list []) := by
  refine ⟨?_, ?_, rfl⟩
  · simp [convert_item, h]
  · intro hl
    have hc : convert_item v = .ok (.str "") := by simp [convert_item, h]
    cases v <;> simp_all [convert_to_json, isList]

/-- Witness for C9 at concrete falsy inputs. -/
theorem convert_item_falsy_spec_witness :
    convert_item PyVal.none = .ok (.str "") ∧
    convert_to_json (PyVal.int 0) = .ok (.str "") :=
  ⟨(convert_item_falsy_spec PyVal.none rfl).1,
    (convert_item_falsy_spec (PyVal.int 0) rfl).2.1 rfl⟩

/-! ### Claim C4 (corrected) -/

/-- C4 counterexample: the claim says an object without `to_json` is
returned unchanged, but `_convert_item` returns `""` for the falsy
result `0` (which has no `to_json`), not `0` itself. -/
theorem convert_to_json_unchanged_counterexample :
    convert_to_json (PyVal.int 0) = .ok (PyVal.str "") ∧
    PyVal.str "" ≠ PyVal.int 0 :=
  ⟨rfl, fun h => PyVal.noConfusion h⟩

/-- C4 (amended): `_convert_to_json` converts a list element-wise; a
single object with `to_json` is replaced by its `to_json()` value, with
the object's `id` copied into the resulting dictionary when the object
has an `id` and `to_json()` returned a truthy value; a *truthy* object
without `to_json` is returned unchanged, while a falsy result yields the
empty string `""`. -/
theorem convert_to_json_spec (item : PyVal) :
    (falsy item = true → convert_item item = .ok (.str "")) ∧
    (falsy item = false → hasToJson item = false → convert_item item = .ok item) ∧
    (∀ data, item = .obj (Option.some data) Option.none →
      convert_item item = .ok data) ∧
    (∀ es idv, item = .obj (Option.some (.dict es)) (Option.some idv) →
      es ≠ [] →
      ∃ es', convert_item item = .ok (.dict es') ∧
        lookupEntry "id" es' = Option.some idv ∧
        ∀ k, k ≠ "id" → lookupEntry k es' = lookupEntry k es) ∧
    (∀ xs ys, xs.mapM convert_item = .ok ys →
      convert_to_json (.list xs) = .ok (.list ys)) ∧
    (isList item = false → convert_to_json item = convert_item item) := by
  refine ⟨?_, ?_, ?_, ?_, ?_, ?_⟩
  · intro h; simp [convert_item, h]
  · intro h hj
    cases item <;> simp_all [convert_item, hasToJson]
    case obj toJson idOpt =>
      cases toJson with
      | none => simp
      | some d => simp at hj
  · intro data hi
    subst hi
    simp only [convert_item, falsy]
    by_cases hd : falsy data = true <;> simp [hd]
  · intro es idv hi hne
    subst hi
    refine ⟨setEntry es "id" idv, ?_, lookupEntry_setEntry_self es "id" idv,
      fun k hk => lookupEntry_setEntry_other es "id" k idv hk⟩
    simp [convert_item, falsy, hne]
  · intro xs ys h
    show (match xs.mapM convert_item with
      | .ok l => Except.ok (PyVal.list l)
      | .error e => Except.error e) = _
    rw [h]
  · intro hl
    cases item <;> simp_all [convert_to_json, isList]

/-- Witness for C4's amended theorem: a truthy object without `to_json`
is unchanged; an object with `to_json` and an `id` yields its
`to_json()` dictionary with the `id` copied in. -/
theorem convert_to_json_spec_witness :
    convert_item (PyVal.str "raw-bytes") = .ok (PyVal.str "raw-bytes") ∧
    (∃ es', convert_item (PyVal.obj (Option.some (.dict [("type", PyVal.str "m")]))
        (Option.some (PyVal.str "55207"))) = .ok (.dict es') ∧
      lookupEntry "id" es' = Option.some (PyVal.str "55207") ∧
      ∀ k, k ≠ "id" →
        lookupEntry k es' = lookupEntry k [("type", PyVal.str "m")]) :=
  ⟨((convert_to_json_spec (PyVal.str "raw-bytes")).2.1 rfl rfl),
    (convert_to_json_spec (PyVal.obj (Option.some (.dict [("type", PyVal.str "m")]))
        (Option.some (PyVal.str "55207")))).2.2.2.1
      [("type", PyVal.str "m")] (PyVal.str "55207") rfl (by simp)⟩

/-! ### Claim C3 (code bug) -/

/-- C3: `_create_dict` is meant to merge a JSON object literal item (or a
dict item, per its own `List[Union[str, dict]]` signature) into the
result, but both branches read the function-local `value_dict` before it
is ever assigned — the local starts unbound, so the very first JSON
object literal or dict item raises `UnboundLocalError` (and the merge
would in any case go into `value_dict`, which is discarded, not into the
returned `values`). The JSON itself parses fine. -/
theorem create_dict_unbound_local_bug :
    jsonLoads "\x7b\"c8y_Agent\": 1\x7d" = .ok (.dict [("c8y_Agent", PyVal.int 1)]) ∧
    create_dict [PyVal.str "\x7b\"c8y_Agent\": 1\x7d"] =
      .error (.unboundLocalError "value_dict") ∧
    create_dict [PyVal.dict [("c8y_Agent", PyVal.int 1)]] =
      .error (.unboundLocalError "value_dict") :=
  ⟨rfl, rfl, rfl⟩

/-! ### Claim C10 -/

/-- C10: a software item string that parses as JSON to a value that is
neither a string nor a dictionary makes `_software_format_list` raise
the `ValueError` saying only csv strings or json dictionaries are
accepted, while a string `json.loads` rejects falls back to the CSV
path. -/
theorem software_format_list_json_type_spec :
    (∀ s w, jsonLoads s = .ok w → isStrOrDict w = false →
      software_format_list ACTION_INSTALL [s] = .error (.valueError
        "Invalid software item definition. Only csv string or json dictionary are accepted")) ∧
    (∀ s, jsonFails s = true →
      software_format_list ACTION_INSTALL [s] =
        .ok [injectAction ACTION_INSTALL (softwareOfParts (pySplitComma5 s))]) := by
  constructor
  · intro s w hok hw
    cases w <;> simp_all [software_format_list, try_parse_json, isStrOrDict]
  · intro s hf
    obtain ⟨e, h⟩ : ∃ e, jsonLoads s = .error e := by
      unfold jsonFails at hf
      cases h : jsonLoads s with
      | ok v => rw [h] at hf; cases hf
      | error e => exact ⟨e, rfl⟩
    simp [software_format_list, try_parse_json, h]

/-- Witness for C10: the numeric literal `"1.5"` parses as JSON to a
float and is rejected; `"pkg,1.0.0"` is not JSON and is parsed as CSV. -/
theorem software_format_list_json_type_spec_witness :
    software_format_list ACTION_INSTALL ["1.5"] = .error (.valueError
      "Invalid software item definition. Only csv string or json dictionary are accepted") ∧
    software_format_list ACTION_INSTALL ["pkg,1.0.0"] =
      .ok [injectAction ACTION_INSTALL (softwareOfParts (pySplitComma5 "pkg,1.0.0"))] :=
  ⟨software_format_list_json_type_spec.1 "1.5" (PyVal.float "1.5") rfl rfl,
    software_format_list_json_type_spec.2 "pkg,1.0.0" rfl⟩

/-! ### Claim C8 -/

/-- Left-biased choice on optional lookups. -/
def orFirst (o1 o2 : Option PyVal) : Option PyVal :=
  match o1 with
  | Option.some v => Option.some v
  | Option.none => o2

theorem lookupEntry_eq_none (es : List (String × PyVal)) (k : String)
    (h : k ∉ es.map Prod.fst) : lookupEntry k es = Option.none := by
  induction es with
  | nil => rfl
  | cons kv rest ih =>
    obtain ⟨k0, v0⟩ := kv
    simp only [List.map, List.mem_cons, not_or] at h
    simp only [lookupEntry]
    rw [if_neg (fun hh => h.1 hh.symm)]
    exact ih h.2

theorem lookupEntry_mergeKw (a b : List (String × PyVal)) (k : String)
    (hb : (b.map Prod.fst).Nodup) :
    lookupEntry k (mergeKw a b) = orFirst (lookupEntry k b) (lookupEntry k a) := by
  induction b generalizing a with
  | nil => simp [mergeKw, lookupEntry, orFirst]
  | cons kv rest ih =>
    obtain ⟨k0, v0⟩ := kv
    simp only [List.map, List.nodup_cons] at hb
    have hstep : mergeKw a ((k0, v0) :: rest) = mergeKw (setEntry a k0 v0) rest := rfl
    rw [hstep, ih (setEntry a k0 v0) hb.2]
    by_cases hk : k0 = k
    · subst hk
      rw [lookupEntry_eq_none rest k0 hb.1]
      simp [lookupEntry, lookupEntry_setEntry_self, orFirst]
    · rw [lookupEntry_setEntry_other a k0 k v0 (fun hh => hk hh.symm)]
      simp [lookupEntry, hk, orFirst]

/-- C8: "Create Operation" issues exactly one call to the external
client's `create_operation`, whose keyword dictionary — modelled as the
return value of the embedded `create_operation` — is the union of the
`description` key, the parsed fragments and the extra keyword
arguments: a key is resolved from the extra keyword arguments first,
then from the fragments, and `"description"` falls back to the default
`"Custom operation"`; a string `fragments` argument is first parsed as
JSON, and a `None` argument is treated as an empty mapping.
(Key uniqueness of the two mappings is a Python invariant: `**kwargs`
and `json.loads` dictionaries never carry duplicate keys.) -/
theorem create_operation_spec (es kwargs : List (String × PyVal))
    (hes : (es.map Prod.fst).Nodup) (hkw : (kwargs.map Prod.fst).Nodup) :
    (∃ m, create_operation (.dict es) DEFAULT_DESCRIPTION kwargs = .ok m ∧
      ∀ k, lookupEntry k m =
        orFirst (lookupEntry k kwargs)
          (orFirst (lookupEntry k es)
            (if k = "description" then Option.some DEFAULT_DESCRIPTION
             else Option.none))) ∧
    (∀ s, jsonLoads s = .ok (.dict es) →
      create_operation (.str s) DEFAULT_DESCRIPTION kwargs =
        create_operation (.dict es) DEFAULT_DESCRIPTION kwargs) ∧
    create_operation PyVal.none DEFAULT_DESCRIPTION kwargs =
      create_operation (.dict []) DEFAULT_DESCRIPTION kwargs := by
  refine ⟨?_, ?_, rfl⟩
  · refine ⟨mergeKw (mergeKw [("description", DEFAULT_DESCRIPTION)] es) kwargs,
      rfl, fun k => ?_⟩
    rw [lookupEntry_mergeKw _ kwargs k hkw, lookupEntry_mergeKw _ es k hes]
    have hbase : lookupEntry k [("description", DEFAULT_DESCRIPTION)] =
        (if k = "description" then Option.some DEFAULT_DESCRIPTION
         else Option.none) := by
      by_cases hd : k = "description"
      · subst hd; simp [lookupEntry]
      · simp only [lookupEntry]
        rw [if_neg (fun hh => hd hh.symm), if_neg hd]
    rw [hbase]
  · intro s hs
    show (match (match PyVal.str s with
        | .str s => jsonLoads s
        | v => Except.ok v : Except PyErr PyVal) with
      | .error e => Except.error e
      | .ok v => _) = _
    rw [show (match PyVal.str s with
        | .str s => jsonLoads s
        | v => Except.ok v : Except PyErr PyVal) = jsonLoads s from rfl, hs]
    rfl

/-- Witness for C8 at a concrete fragment dictionary and keyword set:
the fragments' description overrides the default and an extra keyword
argument overrides a fragment key. -/
theorem create_operation_spec_witness :
    (∃ m, create_operation (.dict [("description", PyVal.str "mine"), ("a", PyVal.int 1)])
        DEFAULT_DESCRIPTION [("a", PyVal.int 2)] = .ok m ∧
      lookupEntry "description" m = Option.some (PyVal.str "mine") ∧
      lookupEntry "a" m = Option.some (PyVal.int 2)) := by
  obtain ⟨m, hm, hl⟩ :=
    (create_operation_spec [("description", PyVal.str "mine"), ("a", PyVal.int 1)]
      [("a", PyVal.int 2)] (by simp) (by simp)).1
  exact ⟨m, hm, by rw [hl "description"]; rfl, by rw [hl "a"]; rfl⟩

/-! ### Claim C6 -/

/-- C6: when `_software_format_list` succeeds, every produced `Software`
item relates to its raw (pre-injection) conversion as follows: name,
version and url are taken over unchanged, and the action is the default
`install` when the raw action is unset or falsy, and the raw action
itself when it is truthy. -/
theorem software_format_list_default_action_spec (items : List String)
    (l : List Software) (h : software_format_list ACTION_INSTALL items = .ok l) :
    l.length = items.length ∧
    ∀ j (hj : j < items.length) (hj' : j < l.length), ∃ raw,
      rawSoftwareOf (items.get ⟨j, hj⟩) = .ok raw ∧
      (l.get ⟨j, hj'⟩).name = raw.name ∧
      (l.get ⟨j, hj'⟩).version = raw.version ∧
      (l.get ⟨j, hj'⟩).url = raw.url ∧
      (actionFalsy raw = true →
        (l.get ⟨j, hj'⟩).action = Option.some ACTION_INSTALL) ∧
      (actionFalsy raw = false → (l.get ⟨j, hj'⟩).action = raw.action) := by
  induction items generalizing l with
  | nil =>
    simp only [software_format_list] at h
    injection h with h'
    subst h'
    exact ⟨rfl, fun j hj => absurd hj (by simp)⟩
  | cons item rest ih =>
    have hinj : ∀ (raw : Software),
        (injectAction ACTION_INSTALL raw).name = raw.name ∧
        (injectAction ACTION_INSTALL raw).version = raw.version ∧
        (injectAction ACTION_INSTALL raw).url = raw.url ∧
        (actionFalsy raw = true →
          (injectAction ACTION_INSTALL raw).action = Option.some ACTION_INSTALL) ∧
        (actionFalsy raw = false →
          (injectAction ACTION_INSTALL raw).action = raw.action) := by
      intro raw
      by_cases haf : actionFalsy raw = true
      · simp [injectAction, haf, falsy, ACTION_INSTALL]
      · simp only [Bool.not_eq_true] at haf
        simp [injectAction, haf]
    cases htp : try_parse_json item with
    | str s =>
      simp only [software_format_list, htp] at h
      cases hrest : software_format_list ACTION_INSTALL rest with
      | error e => rw [hrest] at h; cases h
      | ok l' =>
        rw [hrest] at h
        injection h with h'
        subst h'
        obtain ⟨ihlen, ihall⟩ := ih l' hrest
        refine ⟨by simp [ihlen], fun j hj hj' => ?_⟩
        cases j with
        | zero =>
          refine ⟨softwareOfParts (pySplitComma5 s), ?_, ?_⟩
          · simp [rawSoftwareOf, htp]
          · simpa using hinj (softwareOfParts (pySplitComma5 s))
        | succ j =>
          have hj2 : j < rest.length := by simpa using hj
          have hj2' : j < l'.length := by simpa using hj'
          simpa using ihall j hj2 hj2'
    | dict es =>
      simp only [software_format_list, htp] at h
      cases hrest : software_format_list ACTION_INSTALL rest with
      | error e => rw [hrest] at h; cases h
      | ok l' =>
        rw [hrest] at h
        injection h with h'
        subst h'
        obtain ⟨ihlen, ihall⟩ := ih l' hrest
        refine ⟨by simp [ihlen], fun j hj hj' => ?_⟩
        cases j with
        | zero =>
          refine ⟨softwareOfDict es, ?_, ?_⟩
          · simp [rawSoftwareOf, htp]
          · simpa using hinj (softwareOfDict es)
        | succ j =>
          have hj2 : j < rest.length := by simpa using hj
          have hj2' : j < l'.length := by simpa using hj'
          simpa using ihall j hj2 hj2'
    | none => simp only [software_format_list, htp] at h; cases h
    | bool b => simp only [software_format_list, htp] at h; cases h
    | int n => simp only [software_format_list, htp] at h; cases h
    | float x => simp only [software_format_list, htp] at h; cases h
    | list xs => simp only [software_format_list, htp] at h; cases h
    | dmap es => simp only [software_format_list, htp] at h; cases h
    | obj o i => simp only [software_format_list, htp] at h; cases h

/-- Witness for C6: a CSV item without an action component receives the
default `install` action. -/
theorem software_format_list_default_action_spec_witness :
    software_format_list ACTION_INSTALL ["pkg,1.0.0"] = .ok
      [injectAction ACTION_INSTALL (softwareOfParts (pySplitComma5 "pkg,1.0.0"))] ∧
    ([injectAction ACTION_INSTALL (softwareOfParts (pySplitComma5 "pkg,1.0.0"))].get
        ⟨0, by simp⟩).action = Option.some ACTION_INSTALL := by
  refine ⟨rfl, ?_⟩
  obtain ⟨raw, hraw, _, _, _, hfal, _⟩ :=
    (software_format_list_default_action_spec ["pkg,1.0.0"] _ rfl).2 0
      (by simp) (by simp)
  have hv : rawSoftwareOf (List.get ["pkg,1.0.0"] ⟨0, by simp⟩) =
      Except.ok (softwareOfParts (pySplitComma5 "pkg,1.0.0")) := rfl
  rw [hv] at hraw
  injection hraw with h'
  have haf : actionFalsy raw = true := by rw [← h']; rfl
  exact hfal haf

/-! ### Claim C1 -/

/-- Join with a comma separator: the left inverse of the maxsplit
comma split. -/
def joinComma : List (List Char) → List Char
  | [] => []
  | [x] => x
  | x :: y :: rest => x ++ ',' :: joinComma (y :: rest)

theorem comma_takeWhile (xs rest : List Char) (h : ',' ∉ xs) :
    (xs ++ ',' :: rest).takeWhile (· ≠ ',') = xs := by
  induction xs with
  | nil => rw [List.nil_append, List.takeWhile_cons, if_neg (by simp)]
  | cons c cs ih =>
    simp only [List.mem_cons, not_or] at h
    have hc : (decide (c ≠ ',')) = true := by
      simp only [decide_eq_true_eq]
      exact fun hh => h.1 hh.symm
    rw [List.cons_append, List.takeWhile_cons, if_pos hc, ih h.2]

theorem comma_dropWhile (xs rest : List Char) (h : ',' ∉ xs) :
    (xs ++ ',' :: rest).dropWhile (· ≠ ',') = ',' :: rest := by
  induction xs with
  | nil => rw [List.nil_append, List.dropWhile_cons, if_neg (by simp)]
  | cons c cs ih =>
    simp only [List.mem_cons, not_or] at h
    have hc : (decide (c ≠ ',')) = true := by
      simp only [decide_eq_true_eq]
      exact fun hh => h.1 hh.symm
    rw [List.cons_append, List.dropWhile_cons, if_pos hc, ih h.2]

theorem pySplitMax_comma_cons (xs rest : List Char) (k : Nat)
    (h : ',' ∉ xs) :
    pySplitMax ',' (xs ++ ',' :: rest) (k + 1) = xs :: pySplitMax ',' rest k := by
  simp only [pySplitMax]
  rw [comma_takeWhile xs rest h, comma_dropWhile xs rest h]

theorem pySplitMax_nocomma (xs : List Char) (k : Nat) (h : ',' ∉ xs) :
    pySplitMax ',' xs k = [xs] := by
  cases k with
  | zero => rfl
  | succ k =>
    have hd : xs.dropWhile (· ≠ ',') = [] := by
      rw [List.dropWhile_eq_nil_iff]
      intro x hx
      simp only [ne_eq, decide_eq_true_eq]
      exact fun hh => h (hh ▸ hx)
    simp only [pySplitMax]
    rw [hd]

theorem pySplitMax_length (cs : List Char) (k : Nat) :
    (pySplitMax ',' cs k).length ≤ k + 1 := by
  induction k generalizing cs with
  | zero => simp [pySplitMax]
  | succ k ih =>
    simp only [pySplitMax]
    cases hd : cs.dropWhile (· ≠ ',') with
    | nil => simp
    | cons c rest =>
      simpa using Nat.succ_le_succ (ih rest)

theorem pySplitMax_ne_nil (cs : List Char) (k : Nat) :
    pySplitMax ',' cs k ≠ [] := by
  cases k with
  | zero => simp [pySplitMax]
  | succ k =>
    simp only [pySplitMax]
    cases cs.dropWhile (· ≠ ',') <;> simp

theorem dropWhile_comma_head (cs : List Char) (c : Char) (rest : List Char)
    (h : cs.dropWhile (· ≠ ',') = c :: rest) : c = ',' := by
  induction cs with
  | nil => cases h
  | cons a as ih =>
    by_cases ha : a = ','
    · subst ha
      rw [List.dropWhile_cons, if_neg (by simp)] at h
      injection h with h1 h2
      exact h1.symm
    · rw [List.dropWhile_cons, if_pos (by simp [ha])] at h
      exact ih h

theorem joinComma_pySplitMax (k : Nat) (cs : List Char) :
    joinComma (pySplitMax ',' cs k) = cs := by
  induction k generalizing cs with
  | zero => rfl
  | succ k ih =>
    simp only [pySplitMax]
    cases hd : cs.dropWhile (· ≠ ',') with
    | nil => rfl
    | cons c rest =>
      have hc : c = ',' := dropWhile_comma_head cs c rest hd
      subst hc
      cases hsp : pySplitMax ',' rest k with
      | nil => exact absurd hsp (pySplitMax_ne_nil rest k)
      | cons y ys =>
        show joinComma (cs.takeWhile (· ≠ ',') :: pySplitMax ',' rest k) = cs
        rw [hsp]
        show cs.takeWhile (· ≠ ',') ++ ',' :: joinComma (y :: ys) = cs
        rw [← hsp, ih rest,
          show (',' :: rest) = cs.dropWhile (· ≠ ',') from hd.symm]
        exact List.takeWhile_append_dropWhile _ _

/-- `String.mk` is inverse to `String.data`. -/
theorem stringMk_data (s : String) : String.mk s.data = s := by
  cases s; rfl

/-- Shared helper: an item `json.loads` rejects goes down the CSV path of
`_software_format_list`. -/
theorem software_format_list_csv_path (s : String) (hf : jsonFails s = true) :
    software_format_list ACTION_INSTALL [s] =
      .ok [injectAction ACTION_INSTALL (softwareOfParts (pySplitComma5 s))] := by
  obtain ⟨e, h⟩ : ∃ e, jsonLoads s = .error e := by
    unfold jsonFails at hf
    cases h : jsonLoads s with
    | ok v => rw [h] at hf; cases hf
    | error e => exact ⟨e, rfl⟩
  simp [software_format_list, try_parse_json, h]

/-- C1: a plain CSV software item string `<name>,<version>,<url>` (one
`json.loads` rejects, with comma-free components) is converted by
`_software_format_list` into a `Software` whose name, version and url
are the comma-separated components; with only two components the url is
left unset; splitting uses at most 5 commas: the split has at most 6
fields and joining the fields with commas restores the original
string. -/
theorem software_format_list_csv_triple_spec (n v u : String)
    (hn : ',' ∉ n.data) (hv : ',' ∉ v.data) (hu : ',' ∉ u.data)
    (hjson3 : jsonFails (n ++ "," ++ v ++ "," ++ u) = true)
    (hjson2 : jsonFails (n ++ "," ++ v) = true) :
    software_format_list ACTION_INSTALL [n ++ "," ++ v ++ "," ++ u] = .ok
      [{ name := Option.some (.str n), version := Option.some (.str v),
         url := Option.some (.str u), action := Option.some ACTION_INSTALL }] ∧
    software_format_list ACTION_INSTALL [n ++ "," ++ v] = .ok
      [{ name := Option.some (.str n), version := Option.some (.str v),
         url := Option.none, action := Option.some ACTION_INSTALL }] ∧
    (∀ s : String, (pySplitComma5 s).length ≤ 6) ∧
    (∀ s : String, joinComma (pySplitMax ',' s.data 5) = s.data) := by
  have hcomma : ("," : String).data = [','] := rfl
  refine ⟨?_, ?_, ?_, fun s => joinComma_pySplitMax 5 s.data⟩
  · have hdata : (n ++ "," ++ v ++ "," ++ u).data =
        n.data ++ ',' :: (v.data ++ ',' :: u.data) := by
      simp [String.data_append, hcomma]
    have hsplit : pySplitComma5 (n ++ "," ++ v ++ "," ++ u) = [n, v, u] := by
      unfold pySplitComma5
      rw [hdata,
        show (5 : Nat) = 4 + 1 from rfl,
        pySplitMax_comma_cons n.data (v.data ++ ',' :: u.data) 4 hn,
        show (4 : Nat) = 3 + 1 from rfl,
        pySplitMax_comma_cons v.data u.data 3 hv,
        pySplitMax_nocomma u.data 3 hu]
      simp [stringMk_data]
    rw [software_format_list_csv_path _ hjson3, hsplit]
    rfl
  · have hdata : (n ++ "," ++ v).data = n.data ++ ',' :: v.data := by
      simp [String.data_append, hcomma]
    have hsplit : pySplitComma5 (n ++ "," ++ v) = [n, v] := by
      unfold pySplitComma5
      rw [hdata,
        show (5 : Nat) = 4 + 1 from rfl,
        pySplitMax_comma_cons n.data v.data 4 hn,
        pySplitMax_nocomma v.data 4 hv]
      simp [stringMk_data]
    rw [software_format_list_csv_path _ hjson2, hsplit]
    rfl
  · intro s
    have := pySplitMax_length s.data 5
    simpa [pySplitComma5] using this

/-- Witness for C1 at a concrete CSV triple and pair. -/
theorem software_format_list_csv_triple_spec_witness :
    software_format_list ACTION_INSTALL ["pkg,1.0.0,https://example.com/pkg.deb"] = .ok
      [{ name := Option.some (.str "pkg"), version := Option.some (.str "1.0.0"),
         url := Option.some (.str "https://example.com/pkg.deb"),
         action := Option.some ACTION_INSTALL }] ∧
    software_format_list ACTION_INSTALL ["pkg,1.0.0"] = .ok
      [{ name := Option.some (.str "pkg"), version := Option.some (.str "1.0.0"),
         url := Option.none, action := Option.some ACTION_INSTALL }] := by
  have h := software_format_list_csv_triple_spec "pkg" "1.0.0"
    "https://example.com/pkg.deb" (by decide) (by decide) (by decide) rfl rfl
  exact ⟨h.1, h.2.1⟩

/-! ### Claim C2: observation functions -/

/-- Path lookup through nested mappings (`d[k1][k2]...`). -/
def getPath : PyVal → List String → Option PyVal
  | v, [] => Option.some v
  | .dmap es, k :: rest => (lookupEntry k es).bind (fun c => getPath c rest)
  | .dict es, k :: rest => (lookupEntry k es).bind (fun c => getPath c rest)
  | _, _ :: _ => Option.none

/-- `xs` is a (not necessarily proper) leading segment of `ys`. -/
def leadsTo : List String → List String → Bool
  | [], _ => true
  | _ :: _, [] => false
  | x :: xs, y :: ys => x = y && leadsTo xs ys

/-- The dotted path of a property key as `_create_dict` computes it:
strip, then split on dots. -/
def pathOfKey (k : String) : List String := splitDots (pyStrip k)

/-- The typed value of a property as `_create_dict` computes it: strip,
then `json.loads` with fallback to the stripped string. -/
def typedOf (v : String) : PyVal :=
  match jsonLoads (pyStrip v) with
  | .ok j => j
  | .error _ => .str (pyStrip v)

mutual

/-- No `DotMap` node anywhere inside the value. (External objects are
opaque here: the module's data flows never store `DotMap`s in them.) -/
def dmapFree : PyVal → Bool
  | .dmap _ => false
  | .dict es => dmapFreeEntries es
  | .list xs => dmapFreeList xs
  | _ => true

def dmapFreeEntries : List (String × PyVal) → Bool
  | [] => true
  | (_, v) :: rest => dmapFree v && dmapFreeEntries rest

def dmapFreeList : List PyVal → Bool
  | [] => true
  | v :: rest => dmapFree v && dmapFreeList rest

end

mutual

/-- The shape invariant of the `values` accumulator of `_create_dict`
under dot-path assignments: a `DotMap` node whose entry values are again
such tries, or a `DotMap`-free leaf. -/
def trieOk : PyVal → Bool
  | .dmap es => allTrieOk es
  | v => dmapFree v

def allTrieOk : List (String × PyVal) → Bool
  | [] => true
  | (_, v) :: rest => trieOk v && allTrieOk rest

end

/-- The proper-prefix chain of the path visits only `DotMap` nodes of
the tree (present or auto-creatable): the situation in which the
nested-path assignment of `_create_dict` succeeds without touching any
previously assigned leaf. -/
def freePath : PyVal → List String → Bool
  | .dmap _, [_] => true
  | .dmap es, k :: k2 :: rest =>
    (match lookupEntry k es with
     | Option.none => true
     | Option.some c => freePath c (k2 :: rest))
  | _, _ => false

/-! ### Claim C2: basic lemmas -/

theorem splitDots_ne_nil (s : String) : splitDots s ≠ [] := by
  unfold splitDots
  cases h : pySplitAll '.' s.data with
  | nil =>
    exfalso
    revert h
    cases s.data with
    | nil => intro h; cases h
    | cons c cs =>
      simp only [pySplitAll]
      by_cases hc : c = '.'
      · simp [hc]
      · simp only [if_neg hc]
        cases pySplitAll '.' cs <;> simp
  | cons a as => simp

theorem freePath_dmap_nil (q : List String) (h : q ≠ []) :
    freePath (.dmap []) q = true := by
  cases q with
  | nil => exact absurd rfl h
  | cons k rest =>
    cases rest with
    | nil => rfl
    | cons k2 r => rfl

theorem allTrieOk_lookup (es : List (String × PyVal)) (k : String)
    (c : PyVal) (h : allTrieOk es = true)
    (hl : lookupEntry k es = Option.some c) : trieOk c = true := by
  induction es with
  | nil => cases hl
  | cons kv rest ih =>
    obtain ⟨k0, v0⟩ := kv
    simp only [allTrieOk, Bool.and_eq_true] at h
    simp only [lookupEntry] at hl
    by_cases h0 : k0 = k
    · rw [if_pos h0] at hl
      injection hl with hl'
      exact hl' ▸ h.1
    · rw [if_neg h0] at hl
      exact ih h.2 hl

theorem allTrieOk_setEntry (es : List (String × PyVal)) (k : String)
    (v : PyVal) (h : allTrieOk es = true) (hv : trieOk v = true) :
    allTrieOk (setEntry es k v) = true := by
  induction es with
  | nil => simp [setEntry, allTrieOk, hv]
  | cons kv rest ih =>
    obtain ⟨k0, v0⟩ := kv
    simp only [allTrieOk, Bool.and_eq_true] at h
    by_cases h0 : k0 = k
    · simp [setEntry, h0, allTrieOk, hv, h.2]
    · simp [setEntry, h0, allTrieOk, h.1, ih h.2]

theorem dmapFreeEntries_lookup (es : List (String × PyVal)) (k : String)
    (c : PyVal) (h : dmapFreeEntries es = true)
    (hl : lookupEntry k es = Option.some c) : dmapFree c = true := by
  induction es with
  | nil => cases hl
  | cons kv rest ih =>
    obtain ⟨k0, v0⟩ := kv
    simp only [dmapFreeEntries, Bool.and_eq_true] at h
    simp only [lookupEntry] at hl
    by_cases h0 : k0 = k
    · rw [if_pos h0] at hl
      injection hl with hl'
      exact hl' ▸ h.1
    · rw [if_neg h0] at hl
      exact ih h.2 hl

theorem dmapFreeEntries_setEntry (es : List (String × PyVal)) (k : String)
    (v : PyVal) (h : dmapFreeEntries es = true) (hv : dmapFree v = true) :
    dmapFreeEntries (setEntry es k v) = true := by
  induction es with
  | nil => simp [setEntry, dmapFreeEntries, hv]
  | cons kv rest ih =>
    obtain ⟨k0, v0⟩ := kv
    simp only [dmapFreeEntries, Bool.and_eq_true] at h
    by_cases h0 : k0 = k
    · simp [setEntry, h0, dmapFreeEntries, hv, h.2]
    · simp [setEntry, h0, dmapFreeEntries, h.1, ih h.2]

theorem dmapFreeList_append (xs ys : List PyVal) :
    dmapFreeList (xs ++ ys) = (dmapFreeList xs && dmapFreeList ys) := by
  induction xs with
  | nil => simp [dmapFreeList]
  | cons x rest ih => simp [dmapFreeList, ih, Bool.and_assoc]

/-! ### Claim C2: `json.loads` produces no `DotMap` nodes -/

theorem scanJsonNumber_dmapFree (cs : List Char) (v : PyVal)
    (rest : List Char) (h : scanJsonNumber cs = Option.some (v, rest)) :
    dmapFree v = true := by
  simp only [scanJsonNumber] at h
  repeat' split at h
  all_goals solve
    | cases h
    | (injection h with h'; injection h' with h1 h2; subst h1; rfl)

theorem parse_dmapFree (fuel : Nat) :
    (∀ cs v rest, parseJsonVal fuel cs = .ok (v, rest) → dmapFree v = true) ∧
    (∀ acc cs v rest, dmapFreeList acc = true →
      parseJsonArrayRest fuel acc cs = .ok (v, rest) → dmapFree v = true) ∧
    (∀ acc cs v rest, dmapFreeEntries acc = true →
      parseJsonObjRest fuel acc cs = .ok (v, rest) → dmapFree v = true) := by
  induction fuel with
  | zero =>
    refine ⟨?_, ?_, ?_⟩
    · intro cs v rest h; cases h
    · intro acc cs v rest _ h; cases h
    · intro acc cs v rest _ h; cases h
  | succ fuel ih =>
    obtain ⟨ihv, iha, iho⟩ := ih
    refine ⟨?_, ?_, ?_⟩
    · intro cs v rest h
      simp only [parseJsonVal] at h
      repeat' split at h
      all_goals solve
        | cases h
        | (injection h with h'; injection h' with h1 h2; subst h1; rfl)
        | (injection h with h'; injection h' with h1 h2; subst h1;
           exact scanJsonNumber_dmapFree _ _ _ (by assumption))
        | exact iha [] _ _ _ rfl h
        | exact iho [] _ _ _ rfl h
    · intro acc cs v rest hacc h
      simp only [parseJsonArrayRest] at h
      repeat' split at h
      all_goals solve
        | cases h
        | (injection h with h'; injection h' with h1 h2; subst h1; rfl)
        | (injection h with h'; injection h' with h1 h2; subst h1;
           simp only [dmapFree]
           rw [dmapFreeList_append, hacc]
           simp only [Bool.true_and, dmapFreeList, Bool.and_true]
           exact ihv _ _ _ (by assumption))
        | (refine iha _ _ _ _ ?_ h
           rw [dmapFreeList_append, hacc]
           simp only [Bool.true_and, dmapFreeList, Bool.and_true]
           exact ihv _ _ _ (by assumption))
    · intro acc cs v rest hacc h
      simp only [parseJsonObjRest] at h
      repeat' split at h
      all_goals solve
        | cases h
        | (injection h with h'; injection h' with h1 h2; subst h1; rfl)
        | (injection h with h'; injection h' with h1 h2; subst h1;
           simp only [dmapFree]
           exact dmapFreeEntries_setEntry _ _ _ hacc (ihv _ _ _ (by assumption)))
        | (refine iho _ _ _ _ ?_ h
           exact dmapFreeEntries_setEntry _ _ _ hacc (ihv _ _ _ (by assumption)))

theorem jsonLoads_dmapFree (s : String) (v : PyVal)
    (h : jsonLoads s = .ok v) : dmapFree v = true := by
  unfold jsonLoads at h
  split at h
  · split at h
    · injection h with h'
      subst h'
      exact (parse_dmapFree (s.data.length + 1)).1 _ _ _ (by assumption)
    · cases h
  · cases h

theorem typedOf_dmapFree (v : String) : dmapFree (typedOf v) = true := by
  unfold typedOf
  cases h : jsonLoads (pyStrip v) with
  | ok j => exact jsonLoads_dmapFree _ _ h
  | error e => rfl

/-! ### Claim C2: `toDict` is the identity on `DotMap`-free values -/

mutual

theorem toPlainDict_of_dmapFree (v : PyVal) (h : dmapFree v = true) :
    toPlainDict v = v := by
  cases v with
  | dmap es => exact absurd h (by simp [dmapFree])
  | list xs =>
    show PyVal.list (toPlainList xs) = PyVal.list xs
    rw [toPlainList_of_dmapFree xs h]
  | dict es => rfl
  | none => rfl
  | bool b => rfl
  | int n => rfl
  | float x => rfl
  | str s => rfl
  | obj t i => rfl

theorem toPlainList_of_dmapFree (xs : List PyVal) (h : dmapFreeList xs = true) :
    toPlainList xs = xs := by
  cases xs with
  | nil => rfl
  | cons x rest =>
    simp only [dmapFreeList, Bool.and_eq_true] at h
    show toPlainDict x :: toPlainList rest = x :: rest
    rw [toPlainDict_of_dmapFree x h.1, toPlainList_of_dmapFree rest h.2]

end

theorem trieOk_of_dmapFree (v : PyVal) (h : dmapFree v = true) :
    trieOk v = true := by
  cases v with
  | dmap es => exact absurd h (by simp [dmapFree])
  | none => exact h
  | bool b => exact h
  | int n => exact h
  | float x => exact h
  | str s => exact h
  | list xs => exact h
  | dict es => exact h
  | obj t i => exact h

theorem getPath_nil (v : PyVal) : getPath v [] = Option.some v := by
  cases v <;> rfl

/-! ### Claim C2: lemmas about the nested-path assignment -/

theorem freePath_dmap (t : PyVal) (p : List String)
    (h : freePath t p = true) : ∃ es, t = .dmap es := by
  cases t <;> first
    | exact ⟨_, rfl⟩
    | (exfalso; cases p with
       | nil => exact absurd h (by simp [freePath])
       | cons k rest => cases rest <;> exact absurd h (by simp [freePath]))

theorem assignPath_ok_of_freePath (p : List String) :
    ∀ t v, freePath t p = true → ∃ t', assignPath t p v = .ok t' := by
  induction p with
  | nil =>
    intro t v h
    obtain ⟨es, rfl⟩ := freePath_dmap t [] h
    exact absurd h (by simp [freePath])
  | cons k rest ih =>
    intro t v h
    obtain ⟨es, rfl⟩ := freePath_dmap t (k :: rest) h
    cases rest with
    | nil => exact ⟨.dmap (setEntry es k v), rfl⟩
    | cons k2 r =>
      cases hl : lookupEntry k es with
      | none =>
        obtain ⟨c', hc'⟩ := ih (.dmap []) v (freePath_dmap_nil (k2 :: r) (by simp))
        refine ⟨.dmap (setEntry es k c'), ?_⟩
        simp only [assignPath, hl, hc']
      | some c =>
        have hf : freePath c (k2 :: r) = true := by
          simpa only [freePath, hl] using h
        obtain ⟨c', hc'⟩ := ih c v hf
        refine ⟨.dmap (setEntry es k c'), ?_⟩
        simp only [assignPath, hl, hc']

theorem assignPath_dmap_result (es : List (String × PyVal))
    (p : List String) (v t' : PyVal)
    (h : assignPath (.dmap es) p v = .ok t') :
    ∃ es', t' = .dmap es' := by
  cases p with
  | nil => cases h
  | cons k rest =>
    cases rest with
    | nil =>
      injection h with h'
      exact ⟨_, h'.symm⟩
    | cons k2 r =>
      simp only [assignPath] at h
      split at h
      · injection h with h'
        exact ⟨_, h'.symm⟩
      · cases h

theorem assignPath_trieOk (p : List String) :
    ∀ t v t', freePath t p = true → trieOk t = true → dmapFree v = true →
      assignPath t p v = .ok t' → trieOk t' = true := by
  induction p with
  | nil =>
    intro t v t' h _ _ _
    obtain ⟨es, rfl⟩ := freePath_dmap t [] h
    exact absurd h (by simp [freePath])
  | cons k rest ih =>
    intro t v t' h htrie hv hassign
    obtain ⟨es, rfl⟩ := freePath_dmap t (k :: rest) h
    have hall : allTrieOk es = true := htrie
    cases rest with
    | nil =>
      injection hassign with h'
      subst h'
      show allTrieOk (setEntry es k v) = true
      exact allTrieOk_setEntry es k v hall (trieOk_of_dmapFree v hv)
    | cons k2 r =>
      simp only [assignPath] at hassign
      cases hl : lookupEntry k es with
      | none =>
        rw [hl] at hassign
        cases hc : assignPath (.dmap []) (k2 :: r) v with
        | error e => rw [hc] at hassign; cases hassign
        | ok c' =>
          rw [hc] at hassign
          injection hassign with h'
          subst h'
          show allTrieOk (setEntry es k c') = true
          refine allTrieOk_setEntry es k c' hall ?_
          exact ih (.dmap []) v c' (freePath_dmap_nil (k2 :: r) (by simp))
            rfl hv hc
      | some c =>
        rw [hl] at hassign
        cases hc : assignPath c (k2 :: r) v with
        | error e => rw [hc] at hassign; cases hassign
        | ok c' =>
          rw [hc] at hassign
          injection hassign with h'
          subst h'
          show allTrieOk (setEntry es k c') = true
          refine allTrieOk_setEntry es k c' hall ?_
          refine ih c v c' ?_ (allTrieOk_lookup es k c hall hl) hv hc
          simpa only [freePath, hl] using h

theorem assignPath_getPath (p : List String) :
    ∀ t v t', freePath t p = true → assignPath t p v = .ok t' →
      getPath t' p = Option.some v := by
  induction p with
  | nil =>
    intro t v t' h _
    obtain ⟨es, rfl⟩ := freePath_dmap t [] h
    exact absurd h (by simp [freePath])
  | cons k rest ih =>
    intro t v t' h hassign
    obtain ⟨es, rfl⟩ := freePath_dmap t (k :: rest) h
    cases rest with
    | nil =>
      injection hassign with h'
      subst h'
      show (lookupEntry k (setEntry es k v)).bind
        (fun c => getPath c []) = Option.some v
      rw [lookupEntry_setEntry_self]
      exact getPath_nil v
    | cons k2 r =>
      simp only [assignPath] at hassign
      cases hl : lookupEntry k es with
      | none =>
        rw [hl] at hassign
        cases hc : assignPath (.dmap []) (k2 :: r) v with
        | error e => rw [hc] at hassign; cases hassign
        | ok c' =>
          rw [hc] at hassign
          injection hassign with h'
          subst h'
          show (lookupEntry k (setEntry es k c')).bind
            (fun c => getPath c (k2 :: r)) = Option.some v
          rw [lookupEntry_setEntry_self]
          exact ih (.dmap []) v c' (freePath_dmap_nil (k2 :: r) (by simp)) hc
      | some c =>
        rw [hl] at hassign
        cases hc : assignPath c (k2 :: r) v with
        | error e => rw [hc] at hassign; cases hassign
        | ok c' =>
          rw [hc] at hassign
          injection hassign with h'
          subst h'
          show (lookupEntry k (setEntry es k c')).bind
            (fun c => getPath c (k2 :: r)) = Option.some v
          rw [lookupEntry_setEntry_self]
          refine ih c v c' ?_ hc
          simpa only [freePath, hl] using h

theorem assignPath_frame (p : List String) :
    ∀ t v t' q, assignPath t p v = .ok t' →
      leadsTo p q = false → leadsTo q p = false →
      getPath t' q = getPath t q := by
  induction p with
  | nil => intro t v t' q h _ _; cases h
  | cons k rest ih =>
    intro t v t' q h hpq hqp
    cases rest with
    | nil =>
      cases q with
      | nil => cases hqp
      | cons k' qr =>
        by_cases hk : k' = k
        · subst hk
          exfalso
          simp [leadsTo] at hpq
        · cases t with
          | dmap es =>
            injection h with h'
            subst h'
            show (lookupEntry k' (setEntry es k v)).bind (fun c => getPath c qr) =
              (lookupEntry k' es).bind (fun c => getPath c qr)
            rw [lookupEntry_setEntry_other es k k' v hk]
          | dict es =>
            injection h with h'
            subst h'
            show (lookupEntry k' (setEntry es k v)).bind (fun c => getPath c qr) =
              (lookupEntry k' es).bind (fun c => getPath c qr)
            rw [lookupEntry_setEntry_other es k k' v hk]
          | none => cases h
          | bool b => cases h
          | int n => cases h
          | float x => cases h
          | str s => cases h
          | list xs => cases h
          | obj o i => cases h
    | cons k2 r =>
      cases q with
      | nil => cases hqp
      | cons k' qr =>
        cases t with
        | dmap es =>
          simp only [assignPath] at h
          cases hl : lookupEntry k es with
          | none =>
            rw [hl] at h
            cases hc : assignPath (.dmap []) (k2 :: r) v with
            | error e => rw [hc] at h; cases h
            | ok c' =>
              rw [hc] at h
              injection h with h'
              subst h'
              by_cases hk : k' = k
              · subst hk
                have hpq' : leadsTo (k2 :: r) qr = false := by
                  simpa [leadsTo] using hpq
                have hqp' : leadsTo qr (k2 :: r) = false := by
                  simpa [leadsTo] using hqp
                show (lookupEntry k' (setEntry es k' c')).bind
                    (fun c => getPath c qr) =
                  (lookupEntry k' es).bind (fun c => getPath c qr)
                rw [lookupEntry_setEntry_self, hl]
                show getPath c' qr = Option.none
                rw [ih (.dmap []) v c' qr hc hpq' hqp']
                cases qr with
                | nil => simp [leadsTo] at hqp'
                | cons a b => rfl
              · show (lookupEntry k' (setEntry es k c')).bind
                    (fun c => getPath c qr) =
                  (lookupEntry k' es).bind (fun c => getPath c qr)
                rw [lookupEntry_setEntry_other es k k' c' hk]
          | some c =>
            rw [hl] at h
            cases hc : assignPath c (k2 :: r) v with
            | error e => rw [hc] at h; cases h
            | ok c' =>
              rw [hc] at h
              injection h with h'
              subst h'
              by_cases hk : k' = k
              · subst hk
                have hpq' : leadsTo (k2 :: r) qr = false := by
                  simpa [leadsTo] using hpq
                have hqp' : leadsTo qr (k2 :: r) = false := by
                  simpa [leadsTo] using hqp
                show (lookupEntry k' (setEntry es k' c')).bind
                    (fun c => getPath c qr) =
                  (lookupEntry k' es).bind (fun c => getPath c qr)
                rw [lookupEntry_setEntry_self, hl]
                exact ih c v c' qr hc hpq' hqp'
              · show (lookupEntry k' (setEntry es k c')).bind
                    (fun c => getPath c qr) =
                  (lookupEntry k' es).bind (fun c => getPath c qr)
                rw [lookupEntry_setEntry_other es k k' c' hk]
        | dict es =>
          simp only [assignPath] at h
          split at h
          · cases h
          · rename_i c hl
            split at h
            · rename_i c' hc
              injection h with h'
              subst h'
              by_cases hk : k' = k
              · subst hk
                have hpq' : leadsTo (k2 :: r) qr = false := by
                  simpa [leadsTo] using hpq
                have hqp' : leadsTo qr (k2 :: r) = false := by
                  simpa [leadsTo] using hqp
                show (lookupEntry k' (setEntry es k' c')).bind
                    (fun c => getPath c qr) =
                  (lookupEntry k' es).bind (fun c => getPath c qr)
                rw [lookupEntry_setEntry_self, hl]
                exact ih c v c' qr hc hpq' hqp'
              · show (lookupEntry k' (setEntry es k c')).bind
                    (fun c => getPath c qr) =
                  (lookupEntry k' es).bind (fun c => getPath c qr)
                rw [lookupEntry_setEntry_other es k k' c' hk]
            · cases h
        | none => cases h
        | bool b => cases h
        | int n => cases h
        | float x => cases h
        | str s => cases h
        | list xs => cases h
        | obj o i => cases h

theorem assignPath_freePath (p : List String) :
    ∀ t v t' q, freePath t q = true → assignPath t p v = .ok t' →
      leadsTo p q = false → leadsTo q p = false → freePath t' q = true := by
  induction p with
  | nil => intro t v t' q _ h _ _; cases h
  | cons k rest ih =>
    intro t v t' q hq h hpq hqp
    obtain ⟨es, rfl⟩ := freePath_dmap t q hq
    cases rest with
    | nil =>
      injection h with h'
      subst h'
      cases q with
      | nil => exact absurd hq (by simp [freePath])
      | cons k' qr =>
        cases qr with
        | nil => rfl
        | cons q2 qr2 =>
          by_cases hk : k' = k
          · subst hk
            exfalso
            simp [leadsTo] at hpq
          · show freePath (.dmap (setEntry es k v)) (k' :: q2 :: qr2) = true
            simp only [freePath, lookupEntry_setEntry_other es k k' v hk]
            simpa only [freePath] using hq
    | cons k2 r =>
      simp only [assignPath] at h
      cases hl : lookupEntry k es with
      | none =>
        rw [hl] at h
        cases hc : assignPath (.dmap []) (k2 :: r) v with
        | error e => rw [hc] at h; cases h
        | ok c' =>
          rw [hc] at h
          injection h with h'
          subst h'
          cases q with
          | nil => exact absurd hq (by simp [freePath])
          | cons k' qr =>
            cases qr with
            | nil => rfl
            | cons q2 qr2 =>
              by_cases hk : k' = k
              · subst hk
                have hpq' : leadsTo (k2 :: r) (q2 :: qr2) = false := by
                  simpa [leadsTo] using hpq
                have hqp' : leadsTo (q2 :: qr2) (k2 :: r) = false := by
                  simpa [leadsTo] using hqp
                show freePath (.dmap (setEntry es k' c')) (k' :: q2 :: qr2) = true
                simp only [freePath, lookupEntry_setEntry_self]
                exact ih (.dmap []) v c' (q2 :: qr2)
                  (freePath_dmap_nil _ (by simp)) hc hpq' hqp'
              · show freePath (.dmap (setEntry es k c')) (k' :: q2 :: qr2) = true
                simp only [freePath, lookupEntry_setEntry_other es k k' c' hk]
                simpa only [freePath] using hq
      | some c =>
        rw [hl] at h
        cases hc : assignPath c (k2 :: r) v with
        | error e => rw [hc] at h; cases h
        | ok c' =>
          rw [hc] at h
          injection h with h'
          subst h'
          cases q with
          | nil => exact absurd hq (by simp [freePath])
          | cons k' qr =>
            cases qr with
            | nil => rfl
            | cons q2 qr2 =>
              by_cases hk : k' = k
              · subst hk
                have hpq' : leadsTo (k2 :: r) (q2 :: qr2) = false := by
                  simpa [leadsTo] using hpq
                have hqp' : leadsTo (q2 :: qr2) (k2 :: r) = false := by
                  simpa [leadsTo] using hqp
                have hq' : freePath c (q2 :: qr2) = true := by
                  simpa only [freePath, hl] using hq
                show freePath (.dmap (setEntry es k' c')) (k' :: q2 :: qr2) = true
                simp only [freePath, lookupEntry_setEntry_self]
                exact ih c v c' (q2 :: qr2) hq' hc hpq' hqp'
              · show freePath (.dmap (setEntry es k c')) (k' :: q2 :: qr2) = true
                simp only [freePath, lookupEntry_setEntry_other es k k' c' hk]
                simpa only [freePath] using hq

/-! ### Claim C2: `toDict` commutes with path lookup on tries -/

theorem lookupEntry_toPlainEntries (es : List (String × PyVal)) (k : String) :
    lookupEntry k (toPlainEntries es) =
      (lookupEntry k es).map toPlainDict := by
  induction es with
  | nil => rfl
  | cons kv rest ih =>
    obtain ⟨k0, v0⟩ := kv
    show lookupEntry k ((k0, toPlainDict v0) :: toPlainEntries rest) = _
    by_cases h0 : k0 = k
    · simp [lookupEntry, h0]
    · simp [lookupEntry, h0, ih]

theorem getPath_dmapFree (p : List String) :
    ∀ t leaf, dmapFree t = true → getPath t p = Option.some leaf →
      dmapFree leaf = true := by
  induction p with
  | nil =>
    intro t leaf h hg
    rw [getPath_nil] at hg
    injection hg with h'
    exact h' ▸ h
  | cons k rest ih =>
    intro t leaf h hg
    cases t with
    | dict es =>
      cases hl : lookupEntry k es with
      | none =>
        rw [show getPath (.dict es) (k :: rest) =
          (lookupEntry k es).bind (fun c => getPath c rest) from rfl, hl] at hg
        cases hg
      | some c =>
        rw [show getPath (.dict es) (k :: rest) =
          (lookupEntry k es).bind (fun c => getPath c rest) from rfl, hl] at hg
        exact ih c leaf (dmapFreeEntries_lookup es k c h hl) hg
    | dmap es => exact absurd h (by simp [dmapFree])
    | none => cases hg
    | bool b => cases hg
    | int n => cases hg
    | float x => cases hg
    | str s => cases hg
    | list xs => cases hg
    | obj o i => cases hg

theorem getPath_toPlain (p : List String) :
    ∀ t leaf, trieOk t = true → getPath t p = Option.some leaf →
      getPath (toPlainDict t) p = Option.some (toPlainDict leaf) := by
  induction p with
  | nil =>
    intro t leaf _ hg
    rw [getPath_nil] at hg
    injection hg with h'
    subst h'
    rw [getPath_nil]
  | cons k rest ih =>
    intro t leaf htrie hg
    cases t with
    | dmap es =>
      have hall : allTrieOk es = true := htrie
      cases hl : lookupEntry k es with
      | none =>
        rw [show getPath (.dmap es) (k :: rest) =
          (lookupEntry k es).bind (fun c => getPath c rest) from rfl, hl] at hg
        cases hg
      | some c =>
        rw [show getPath (.dmap es) (k :: rest) =
          (lookupEntry k es).bind (fun c => getPath c rest) from rfl, hl] at hg
        show getPath (.dict (toPlainEntries es)) (k :: rest) = _
        show (lookupEntry k (toPlainEntries es)).bind (fun c => getPath c rest) = _
        rw [lookupEntry_toPlainEntries, hl]
        exact ih c leaf (allTrieOk_lookup es k c hall hl) hg
    | dict es =>
      have hfree : dmapFree leaf = true :=
        getPath_dmapFree (k :: rest) (.dict es) leaf htrie hg
      show getPath (.dict es) (k :: rest) = Option.some (toPlainDict leaf)
      rw [toPlainDict_of_dmapFree leaf hfree]
      exact hg
    | none => cases hg
    | bool b => cases hg
    | int n => cases hg
    | float x => cases hg
    | str s => cases hg
    | list xs => cases hg
    | obj o i => cases hg

mutual

theorem toPlain_dmapFree_of_trieOk (v : PyVal) (h : trieOk v = true) :
    dmapFree (toPlainDict v) = true := by
  cases v with
  | dmap es =>
    show dmapFreeEntries (toPlainEntries es) = true
    exact toPlainEntries_dmapFree_of_allTrieOk es h
  | list xs =>
    rw [toPlainDict_of_dmapFree _ h]
    exact h
  | dict es =>
    rw [toPlainDict_of_dmapFree _ h]
    exact h
  | none => exact h
  | bool b => exact h
  | int n => exact h
  | float x => exact h
  | str s => exact h
  | obj o i => exact h

theorem toPlainEntries_dmapFree_of_allTrieOk (es : List (String × PyVal))
    (h : allTrieOk es = true) : dmapFreeEntries (toPlainEntries es) = true := by
  cases es with
  | nil => rfl
  | cons kv rest =>
    obtain ⟨k0, v0⟩ := kv
    simp only [allTrieOk, Bool.and_eq_true] at h
    show (dmapFree (toPlainDict v0) && dmapFreeEntries (toPlainEntries rest)) = true
    rw [toPlain_dmapFree_of_trieOk v0 h.1,
      toPlainEntries_dmapFree_of_allTrieOk rest h.2]
    rfl

end

/-! ### Claim C2: reduction of one loop iteration on a dot-path item -/

theorem sep_takeWhile (sep : Char) (xs rest : List Char) (h : sep ∉ xs) :
    (xs ++ sep :: rest).takeWhile (· ≠ sep) = xs := by
  induction xs with
  | nil => rw [List.nil_append, List.takeWhile_cons, if_neg (by simp)]
  | cons c cs ih =>
    simp only [List.mem_cons, not_or] at h
    have hc : (decide (c ≠ sep)) = true := by
      simp only [decide_eq_true_eq]
      exact fun hh => h.1 hh.symm
    rw [List.cons_append, List.takeWhile_cons, if_pos hc, ih h.2]

theorem sep_dropWhile (sep : Char) (xs rest : List Char) (h : sep ∉ xs) :
    (xs ++ sep :: rest).dropWhile (· ≠ sep) = sep :: rest := by
  induction xs with
  | nil => rw [List.nil_append, List.dropWhile_cons, if_neg (by simp)]
  | cons c cs ih =>
    simp only [List.mem_cons, not_or] at h
    have hc : (decide (c ≠ sep)) = true := by
      simp only [decide_eq_true_eq]
      exact fun hh => h.1 hh.symm
    rw [List.cons_append, List.dropWhile_cons, if_pos hc, ih h.2]

theorem partitionEq_append (k v : String) (h : '=' ∉ k.data) :
    partitionEq (k ++ "=" ++ v) = (k, v) := by
  have hdata : (k ++ "=" ++ v).data = k.data ++ '=' :: v.data := by
    have he : ("=" : String).data = ['='] := rfl
    simp [String.data_append, he]
  unfold partitionEq
  rw [hdata, sep_takeWhile '=' _ _ h, sep_dropWhile '=' _ _ h]

theorem dropWhile_append_singleton (c : Char) (hc : isPyWs c = false) :
    ∀ m : List Char, ∃ zs, (m ++ [c]).dropWhile isPyWs = zs ++ [c] := by
  intro m
  induction m with
  | nil =>
    refine ⟨[], ?_⟩
    show List.dropWhile isPyWs [c] = [c]
    rw [List.dropWhile_cons, if_neg (by simp [hc])]
  | cons a m' ih =>
    by_cases ha : isPyWs a = true
    · obtain ⟨zs, hzs⟩ := ih
      exact ⟨zs, by rw [List.cons_append, List.dropWhile_cons, if_pos ha, hzs]⟩
    · refine ⟨a :: m', ?_⟩
      rw [List.cons_append, List.dropWhile_cons,
        if_neg (by simp [Bool.not_eq_true] at ha; simp [ha])]

theorem pyStripList_cons (c : Char) (cs : List Char) (hc : isPyWs c = false) :
    ∃ zs, pyStripList (c :: cs) = c :: zs := by
  unfold pyStripList
  rw [List.dropWhile_cons, if_neg (by simp [hc])]
  rw [show (c :: cs).reverse = cs.reverse ++ [c] from by simp]
  obtain ⟨zs, hzs⟩ := dropWhile_append_singleton c hc cs.reverse
  exact ⟨zs.reverse, by rw [hzs]; simp⟩

/-- The first character of a key whose stripped form matches the
dot-notation pattern is either whitespace or a pattern character; in
both cases it is not an opening brace. -/
theorem key_head_not_lbrace (k : String) (hk : isDotKey (pyStrip k) = true) :
    ∀ c cs, k.data = c :: cs → (c = Char.ofNat 123) = False := by
  intro c cs hdata
  by_cases hws : isPyWs c = true
  · simp only [eq_iff_iff, iff_false]
    intro hc
    rw [hc] at hws
    cases hws
  · simp only [Bool.not_eq_true] at hws
    obtain ⟨zs, hzs⟩ := pyStripList_cons c cs hws
    have hsd : (pyStrip k).data = c :: zs := by
      show (String.mk (pyStripList k.data)).data = c :: zs
      rw [hdata, hzs]
    have hdc : isDotChar c = true := by
      unfold isDotKey at hk
      rw [hsd] at hk
      revert hk
      split
      · rename_i rest hrev
        intro hk
        simp only [Bool.and_eq_true] at hk
        -- c :: zs = ('\n' :: rest).reverse reversed: rest.reverse is the core
        cases hr : rest.reverse with
        | nil =>
          exfalso
          have : c :: zs = ['\n'] := by
            have h1 : (c :: zs).reverse = '\n' :: rest := hrev
            have h2 : c :: zs = ('\n' :: rest).reverse := by
              rw [← h1, List.reverse_reverse]
            rw [h2, List.reverse_cons, hr]
            rfl
          have hcn : c = '\n' := (List.cons.injEq .. ▸ this).1
          rw [hcn] at hws
          cases hws
        | cons c2 ys =>
          have h2 : c :: zs = c2 :: (ys ++ ['\n']) := by
            have h1 : c :: zs = ('\n' :: rest).reverse := by
              rw [← hrev, List.reverse_reverse]
            rw [h1, List.reverse_cons, hr]
            rfl
          have hcc : c = c2 := (List.cons.injEq .. ▸ h2).1
          have hmem : c ∈ rest.reverse := by rw [hr, hcc]; exact List.mem_cons_self _ _
          exact List.all_eq_true.mp hk.2 c hmem
      · intro hk
        simp only [Bool.and_eq_true] at hk
        exact List.all_eq_true.mp hk.2 c (hsd ▸ List.mem_cons_self c zs)
    simp only [eq_iff_iff, iff_false]
    intro hc
    rw [hc] at hdc
    cases hdc

theorem startsWithLbrace_of_key (k v : String)
    (hk : isDotKey (pyStrip k) = true) :
    startsWithLbrace (k ++ "=" ++ v) = false := by
  have hne : k.data ≠ [] := by
    intro h0
    have : pyStrip k = "" := by
      show String.mk (pyStripList k.data) = ""
      rw [h0]
      rfl
    rw [this] at hk
    cases hk
  cases hd : k.data with
  | nil => exact absurd hd hne
  | cons c cs =>
    have hdata : (k ++ "=" ++ v).data = c :: (cs ++ '=' :: v.data) := by
      have he : ("=" : String).data = ['='] := rfl
      simp [String.data_append, he, hd]
    unfold startsWithLbrace
    rw [hdata]
    have := key_head_not_lbrace k hk c cs hd
    simp only [this]
    rfl

/-- One loop iteration of `_create_dict` on a dot-path item
`<key>=<value>` reduces to the nested-path assignment. -/
theorem createDictStep_dot (st : CDState) (k v : String)
    (hk1 : '=' ∉ k.data) (hk2 : isDotKey (pyStrip k) = true)
    (t' : PyVal)
    (ha : assignPath st.values (pathOfKey k) (typedOf v) = .ok t') :
    createDictStep st (.str (k ++ "=" ++ v)) = .ok { st with values := t' } := by
  have hsw : startsWithLbrace (k ++ "=" ++ v) = false :=
    startsWithLbrace_of_key k v hk2
  have hne : pyStrip k ≠ "" := by
    intro h0
    rw [h0] at hk2
    cases hk2
  show (if (startsWithLbrace (k ++ "=" ++ v) &&
      endsWithRbrace (k ++ "=" ++ v)) = true then _ else _) = _
  rw [hsw, Bool.false_and, if_neg (by simp)]
  rw [show partitionEq (k ++ "=" ++ v) = (k, v) from partitionEq_append k v hk1]
  show (if (decide (pyStrip k ≠ "") && isDotKey (pyStrip k)) = true then
      (match assignPath st.values (splitDots (pyStrip k))
        (match jsonLoads (pyStrip v) with
          | .ok j => j
          | .error _ => .str (pyStrip v)) with
        | .ok values' => Except.ok { st with values := values' }
        | .error e => Except.error e)
    else _) = _
  rw [if_pos (by simp [hne, hk2])]
  rw [show (match jsonLoads (pyStrip v) with
      | .ok j => j
      | .error _ => .str (pyStrip v)) = typedOf v from rfl]
  rw [show splitDots (pyStrip k) = pathOfKey k from rfl, ha]

/-- The loop of `_create_dict` over dot-path items, relative to a
starting accumulator: it performs the nested-path assignments in order
and leaves the local `value_dict`/`obj` names unbound. -/
theorem createDict_fold (props : List (String × String)) :
    ∀ es0, trieOk (.dmap es0) = true →
    (∀ p ∈ props, '=' ∉ p.1.data ∧ isDotKey (pyStrip p.1) = true) →
    (∀ p ∈ props, freePath (.dmap es0) (pathOfKey p.1) = true) →
    props.Pairwise (fun a b =>
      leadsTo (pathOfKey a.1) (pathOfKey b.1) = false ∧
      leadsTo (pathOfKey b.1) (pathOfKey a.1) = false) →
    ∃ es', (props.map (fun p => PyVal.str (p.1 ++ "=" ++ p.2))).foldlM
        createDictStep ⟨.dmap es0, Option.none, Option.none⟩ =
        .ok ⟨.dmap es', Option.none, Option.none⟩ ∧
      trieOk (.dmap es') = true ∧
      (∀ p ∈ props, getPath (.dmap es') (pathOfKey p.1) =
        Option.some (typedOf p.2)) ∧
      (∀ q, (∀ p ∈ props, leadsTo (pathOfKey p.1) q = false ∧
          leadsTo q (pathOfKey p.1) = false) →
        getPath (.dmap es') q = getPath (.dmap es0) q) := by
  induction props with
  | nil =>
    intro es0 ht _ _ _
    exact ⟨es0, rfl, ht, fun p hp => absurd hp (by simp), fun q _ => rfl⟩
  | cons p props ih =>
    intro es0 ht hkeys hfree hpair
    have hfp : freePath (.dmap es0) (pathOfKey p.1) = true :=
      hfree p (List.mem_cons_self p props)
    obtain ⟨t1, ht1⟩ :=
      assignPath_ok_of_freePath (pathOfKey p.1) (.dmap es0) (typedOf p.2) hfp
    obtain ⟨es1, rfl⟩ := assignPath_dmap_result es0 _ _ _ ht1
    have hkp := hkeys p (List.mem_cons_self p props)
    have hstep := createDictStep_dot ⟨.dmap es0, Option.none, Option.none⟩
      p.1 p.2 hkp.1 hkp.2 (.dmap es1) ht1
    have hpairhead : ∀ r ∈ props,
        leadsTo (pathOfKey p.1) (pathOfKey r.1) = false ∧
        leadsTo (pathOfKey r.1) (pathOfKey p.1) = false :=
      (List.pairwise_cons.mp hpair).1
    have hpairrest := (List.pairwise_cons.mp hpair).2
    have ht1ok : trieOk (.dmap es1) = true :=
      assignPath_trieOk _ _ _ _ hfp ht (typedOf_dmapFree p.2) ht1
    have hfree1 : ∀ r ∈ props, freePath (.dmap es1) (pathOfKey r.1) = true :=
      fun r hr => assignPath_freePath _ _ _ _ _
        (hfree r (List.mem_cons_of_mem p hr)) ht1
        (hpairhead r hr).1 (hpairhead r hr).2
    obtain ⟨es', hfold', ht'ok, hget', hframe'⟩ :=
      ih es1 ht1ok (fun r hr => hkeys r (List.mem_cons_of_mem p hr))
        hfree1 hpairrest
    refine ⟨es', ?_, ht'ok, ?_, ?_⟩
    · show ((PyVal.str (p.1 ++ "=" ++ p.2)) ::
          props.map (fun p => PyVal.str (p.1 ++ "=" ++ p.2))).foldlM
          createDictStep ⟨.dmap es0, Option.none, Option.none⟩ = _
      rw [List.foldlM_cons, hstep]
      exact hfold'
    · intro r hr
      rcases List.mem_cons.mp hr with rfl | hr'
      · rw [hframe' (pathOfKey r.1)
          (fun s hs => ⟨(hpairhead s hs).2, (hpairhead s hs).1⟩)]
        exact assignPath_getPath _ _ _ _ hfp ht1
      · exact hget' r hr'
    · intro q hq
      rw [hframe' q (fun s hs => hq s (List.mem_cons_of_mem p hs))]
      exact assignPath_frame _ _ _ _ q ht1
        (hq p (List.mem_cons_self p props)).1
        (hq p (List.mem_cons_self p props)).2

/-- C2 counterexample: the keys `a` and `a.b` both match the
dot-notation pattern, yet `_create_dict(["a=1", "a.b=2"])` raises a
`TypeError` (the second assignment subscripts the integer stored at
`a`) instead of returning a dictionary. -/
theorem create_dict_nested_key_counterexample :
    isDotKey "a" = true ∧ isDotKey "a.b" = true ∧
    create_dict [.str "a=1", .str "a.b=2"] = .error .typeError :=
  ⟨rfl, rfl, rfl⟩

/-- C2 (amended): for every list of `key=value` property strings whose
keys match the dot-notation pattern, *provided no key's dotted path is a
prefix of another key's path*, `_create_dict` returns a nested plain
dictionary (no `DotMap` left) in which each dotted key path is expanded
into nested objects and holds the value, JSON-parsed when possible and
kept as a (stripped) string otherwise, with surrounding whitespace
stripped from key and value. -/
theorem create_dict_dot_spec (props : List (String × String))
    (hkeys : ∀ p ∈ props, '=' ∉ p.1.data ∧ isDotKey (pyStrip p.1) = true)
    (hsep : props.Pairwise (fun a b =>
      leadsTo (pathOfKey a.1) (pathOfKey b.1) = false ∧
      leadsTo (pathOfKey b.1) (pathOfKey a.1) = false)) :
    ∃ es, create_dict (props.map (fun p => PyVal.str (p.1 ++ "=" ++ p.2))) =
        .ok (.dict es) ∧
      dmapFree (.dict es) = true ∧
      ∀ p ∈ props, getPath (.dict es) (pathOfKey p.1) =
        Option.some (typedOf p.2) := by
  obtain ⟨es', hfold, htok, hget, _⟩ := createDict_fold props [] rfl hkeys
    (fun p _ => freePath_dmap_nil _ (splitDots_ne_nil _)) hsep
  refine ⟨toPlainEntries es', ?_, ?_, ?_⟩
  · unfold create_dict
    rw [hfold]
    rfl
  · exact toPlain_dmapFree_of_trieOk (.dmap es') htok
  · intro p hp
    have h2 := getPath_toPlain (pathOfKey p.1) (.dmap es') (typedOf p.2)
      htok (hget p hp)
    rw [toPlainDict_of_dmapFree _ (typedOf_dmapFree p.2)] at h2
    exact h2

/-- Witness for C2's amended theorem at a concrete property list: a
nested dot path with a JSON string value and a plain top-level key. -/
theorem create_dict_dot_spec_witness :
    ∃ es, create_dict
        [PyVal.str ("c8y_Hardware.serialNumber" ++ "=" ++ "\"abc 123\""),
         PyVal.str ("status" ++ "=" ++ "down")] = .ok (.dict es) ∧
      getPath (.dict es) (pathOfKey "c8y_Hardware.serialNumber") =
        Option.some (typedOf "\"abc 123\"") ∧
      getPath (.dict es) (pathOfKey "status") =
        Option.some (typedOf "down") := by
  obtain ⟨es, hcd, _, hget⟩ := create_dict_dot_spec
    [("c8y_Hardware.serialNumber", "\"abc 123\""), ("status", "down")]
    (by decide) (by decide)
  exact ⟨es, hcd,
    hget _ (List.mem_cons_self _ _),
    hget _ (List.mem_cons_of_mem _ (List.mem_cons_self _ _))⟩

end C8y
